import Mathlib

/-!
# I/O multiplexing word-statistics server and client

A shallow embedding of `server.c`, `client.c`, `text_statistics.h` and `file.h`.

Bytes are natural numbers below 256.  The two implementation-defined C choices the
code is sensitive to (signedness of plain `char`, byte order of an
`unsigned long long`) are collected in `Platform`.  System calls are modelled by
their outcomes, supplied as explicit inputs.
-/

namespace IOMultiplexing

/-! ## Platform and machine integers -/

/-- Implementation-defined choices of the C platform: whether plain `char` is signed,
and whether multi-byte integers are stored least significant byte first. -/
structure Platform where
  char_signed : Bool
  little_endian : Bool
deriving DecidableEq, Repr

/-- The x86-64 System V platform: signed `char`, little-endian. -/
def x86_64 : Platform := ⟨true, true⟩

/-- An AArch64 Linux platform: unsigned `char`, little-endian. -/
def aarch64 : Platform := ⟨false, true⟩

/-- Number of values of a 64-bit unsigned integer (`unsigned long long`, `size_t`, `nfds_t`). -/
def UINT64_SIZE : Nat := 2 ^ 64

/-- Number of values of a 32-bit unsigned integer (`unsigned int`). -/
def UINT32_SIZE : Nat := 2 ^ 32

/-- `UINT8_MAX` of `stdint.h`. -/
def UINT8_MAX : Nat := 255

/-- `MAX_ASCII_CHAR` of `text_statistics.h`. -/
def MAX_ASCII_CHAR : Nat := 256

/-- `MAX_WORD_LEN` of `server.c`. -/
def MAX_WORD_LEN : Nat := 256

/-- `POLLIN` of `poll.h`. -/
def POLLIN : Nat := 1

/-- `EXIT_SUCCESS` of `stdlib.h`. -/
def EXIT_SUCCESS : Nat := 0

/-- `EXIT_FAILURE` of `stdlib.h`. -/
def EXIT_FAILURE : Nat := 1

/-- The value of a byte held in a plain `char` object. -/
def char_of_byte (p : Platform) (b : Nat) : Int :=
  if p.char_signed = true ∧ 128 ≤ b then (b : Int) - 256 else (b : Int)

/-- The cast `(unsigned char)x`. -/
def to_unsigned_char (x : Int) : Nat := (x % 256).toNat

/-- The cast `(uint8_t)n` of an unsigned value. -/
def to_uint8 (n : Nat) : Nat := n % 256

/-- The cast `(size_t)x` of a signed value. -/
def to_size_t (x : Int) : Nat := (x % (UINT64_SIZE : Int)).toNat

/-- The libc function `tolower` in the "C" locale (neither program calls `setlocale`):
upper-case ASCII letters are mapped to lower case, every other value is returned as is. -/
def tolower (c : Int) : Int := if 65 ≤ c ∧ c ≤ 90 then c + 32 else c

/-- The libc function `strlen` on the bytes of a buffer: the number of bytes before the first NUL. -/
def strlen : List Nat → Nat
  | [] => 0
  | c :: cs => if c = 0 then 0 else strlen cs + 1

/-! ## `text_statistics.h` -/

/-- The struct `TextStatistics`: two `unsigned long long` counters and an array of 256
`unsigned long long` counters. -/
structure TextStatistics where
  word_count : Nat
  character_count : Nat
  character_frequency : Fin 256 → Nat

/-- The struct `ClientData`: the descriptor and the owned statistics (`none` is `NULL`). -/
structure ClientData where
  socket_fd : Int
  stats : Option TextStatistics

/-- The object `calloc(1, sizeof(TextStatistics))` returns: all bytes zero. -/
def calloc_stats : TextStatistics := ⟨0, 0, fun _ => 0⟩

/-- The statement `frequencyArray[j]++` of `update_character_frequency`, where `frequencyArray`
is the `unsigned int *` parameter and the caller passed the address of the
`unsigned long long character_frequency[256]` member.  The 4-byte element `j` of the parameter
lies inside the 8-byte counter `j / 2`: it is one of the two 32-bit halves of that counter, the
low half for even `j` on a little-endian platform.  The increment wraps inside that half. -/
def frequencyArray_increment (p : Platform) (freq : Fin 256 → Nat) (j : Fin 256) : Fin 256 → Nat :=
  let k : Fin 256 := ⟨j.val / 2, by omega⟩
  let lo := freq k % UINT32_SIZE
  let hi := freq k / UINT32_SIZE % UINT32_SIZE
  let is_low : Bool := (j.val % 2 == 0) == p.little_endian
  let c := if is_low = true then hi * UINT32_SIZE + (lo + 1) % UINT32_SIZE
    else ((hi + 1) % UINT32_SIZE) * UINT32_SIZE + lo
  Function.update freq k c

/-- The function `update_character_frequency(word, word_size, frequencyArray)`, called with non-null
pointers.  The list is the memory at `word`; the loop runs over `i < word_size`, stops at a NUL
byte, and increments element `(unsigned char)tolower(word[i])` of `frequencyArray`. -/
def update_character_frequency (p : Platform) : List Nat → Nat → (Fin 256 → Nat) → (Fin 256 → Nat)
  | [], _, freq => freq
  | _ :: _, 0, freq => freq
  | c :: cs, n + 1, freq =>
    if c = 0 then freq
    else
      let lowered := to_unsigned_char (tolower (char_of_byte p c))
      update_character_frequency p cs n
        (frequencyArray_increment p freq ⟨lowered % 256, Nat.mod_lt _ (by decide)⟩)

/-- The function `initialize_stats_zero`: the two scalar counters are set to zero and `memset`
clears `MAX_ASCII_CHAR * sizeof(unsigned int)` = 1024 bytes of `character_frequency`, that is the
first `1024 / sizeof(unsigned long long)` = 128 counters. -/
def initialize_stats_zero (s : TextStatistics) : TextStatistics :=
  { word_count := 0
    character_count := 0
    character_frequency := fun b => if b.val < MAX_ASCII_CHAR * 4 / 8 then 0 else s.character_frequency b }

/-- The statements of `handle_client_data` after a body read that stored the bytes `body` in
`word` (lines 508 to 511): `word[valread] = 0`, `word_count++`, `character_count += strlen(word)`,
`update_character_frequency(word, strlen(word), character_frequency)`; the second argument is
converted to `uint8_t`. -/
def record_word (p : Platform) (s : TextStatistics) (body : List Nat) : TextStatistics :=
  let word := body ++ [0]
  { word_count := (s.word_count + 1) % UINT64_SIZE
    character_count := (s.character_count + strlen word) % UINT64_SIZE
    character_frequency :=
      update_character_frequency p word (to_uint8 (strlen word)) s.character_frequency }

/-- The bytes of an ASCII string. -/
def ascii (s : String) : List Nat := s.toList.map Char.toNat

/-! ## Results of running a piece of the program -/

/-- Result of running a piece of the program: it completes with a value, it terminates the
process through `exit(status)`, or it reads or writes outside an object or through a null pointer
(the behaviour is then undefined). -/
inductive Run (α : Type) where
  | ok (a : α)
  | exit (status : Nat)
  | fault

/-- Outcome of one `read` call as the kernel would serve it regardless of the requested count:
an error (`-1`), or the bytes currently available (none at end of stream). -/
inductive ReadResult where
  | error
  | data (bytes : List Nat)
deriving DecidableEq, Repr

/-- `SSIZE_MAX` of `limits.h`, for a 64-bit `ssize_t`. -/
def SSIZE_MAX : Nat := 2 ^ 63 - 1

/-- The call `read(fd, buf, count)`: the return value and the bytes stored in `buf`.  At most
`count` bytes are transferred.  A count above `SSIZE_MAX` is rejected: the call returns -1 and
stores nothing (Linux fails such a call with `EFAULT`). -/
def sys_read (r : ReadResult) (count : Nat) : Int × List Nat :=
  if SSIZE_MAX < count then (-1, [])
  else
    match r with
    | .error => (-1, [])
    | .data bytes => (((bytes.take count).length : Nat), bytes.take count)

/-! ## `server.c`: the connection table -/

/-- The struct `pollfd`. -/
structure pollfd where
  fd : Int
  events : Nat
  revents : Nat
deriving DecidableEq, Repr

/-- Observable actions of the server, in the order they happen. -/
inductive Effect where
  | sent_stats (fd : Int) (s : TextStatistics)
  | printed_stats (s : TextStatistics)
  | closed (fd : Int)
  | received_word (fd : Int) (word : List Nat)

/-- The variables `client_sockets`, `fds` and `max_clients` of `main`.  The two lists are the
allocated arrays (they may be longer than the part in use); `log` records the actions performed. -/
structure Server where
  client_sockets : List ClientData
  fds : List pollfd
  max_clients : Nat
  log : List Effect

/-- The value `n - 1` computed in the unsigned type `nfds_t`. -/
def nfds_pred (n : Nat) : Nat := (n + UINT64_SIZE - 1) % UINT64_SIZE

/-- The loop `for (i = start; i < start + steps; i++) xs[i] = xs[i + 1];` with every array access
checked against the allocation: `none` when an index is outside `xs`. -/
def shift_down {α : Type} : Nat → List α → Nat → Option (List α)
  | 0, xs, _ => some xs
  | steps + 1, xs, i =>
    match xs[i + 1]? with
    | none => none
    | some v => shift_down steps (xs.set i v) (i + 1)

/-- The call `realloc(xs, n * sizeof *xs)` when it succeeds: the first `n` elements are kept, new
elements have the indeterminate content `fill`. -/
def realloc {α : Type} (xs : List α) (n : Nat) (fill : α) : List α :=
  xs.take n ++ List.replicate (n - xs.length) fill

/-- The function `initialize_pollfds`, when `malloc` succeeds: one watch entry for the listening
socket, whose `revents` member is not written (`garbage`), and no client array. -/
def initialize_pollfds (sockfd : Int) (garbage : Nat) : Server :=
  { client_sockets := []
    fds := [⟨sockfd, POLLIN, garbage⟩]
    max_clients := 0
    log := [] }

/-- Modelled from the spec: `write_stats`, called by `handle_client_disconnection`, is defined in
no source file.  The spec (4.5, steps 1 and 2) has it serialize the connection's accumulator and
attempt to transmit it over the same stream, a failed write being logged and not fatal; it does not
touch the connection table. -/
def write_stats (c : ClientData) : List Effect :=
  match c.stats with
  | some s => [Effect.sent_stats c.socket_fd s]
  | none => []

/-- The function `handle_client_disconnection`: statistics are sent and printed, the socket is
closed, the statistics are freed, then the entries after `client_index` are moved down by one in
`client_sockets` and in `fds` and `max_clients` is decremented.  Neither array is reallocated. -/
def handle_client_disconnection (t : Server) (client_index : Nat) : Run Server :=
  match t.client_sockets[client_index]? with
  | none => .fault
  | some c =>
    match c.stats with
    | none => .fault
    | some s =>
      let log := t.log ++ write_stats c ++ [Effect.printed_stats s, Effect.closed c.socket_fd]
      let freed := t.client_sockets.set client_index { c with stats := none }
      match shift_down (nfds_pred t.max_clients - client_index) freed client_index with
      | none => .fault
      | some client_sockets =>
        let max_clients := nfds_pred t.max_clients
        match shift_down (max_clients + 1 - (client_index + 1)) t.fds (client_index + 1) with
        | none => .fault
        | some fds => .ok { client_sockets := client_sockets, fds := fds, max_clients := max_clients, log := log }

/-- What the environment decides during one call of `handle_new_connection`: the value `accept`
returns, whether each allocation succeeds, and the indeterminate content of newly allocated
array elements. -/
structure AcceptEnv where
  new_socket : Int
  realloc_clients_ok : Bool
  calloc_ok : Bool
  realloc_fds_ok : Bool
  fresh_client : ClientData
  fresh_pollfd : pollfd

/-- The value `sizeof(ClientData)`: an `int`, padding, and a pointer. -/
def SIZEOF_ClientData : Nat := 16

/-- The value `sizeof(struct pollfd)`: an `int` and two `short`. -/
def SIZEOF_pollfd : Nat := 8

/-- Number of whole elements in a block of `size * n` bytes, the product being computed in
`size_t`. -/
def realloc_count (size n : Nat) : Nat := size * n % UINT64_SIZE / size

/-- The function `handle_new_connection`.  When the listening entry reports `POLLIN`, one
connection is accepted, `max_clients` is incremented, both arrays are reallocated to the new
count, the last client slot receives the socket and zeroed statistics, and the last watch entry
receives `fd` and `events` (its `revents` member is not written). -/
def handle_new_connection (t : Server) (e : AcceptEnv) : Run Server :=
  match t.fds[0]? with
  | none => .fault
  | some listening =>
    if listening.revents &&& POLLIN ≠ 0 then
      if e.new_socket = -1 then .exit EXIT_FAILURE
      else
        let max_clients := (t.max_clients + 1) % UINT64_SIZE
        if e.realloc_clients_ok = false then .exit EXIT_FAILURE
        else if e.calloc_ok = false then .exit EXIT_FAILURE
        else
          let stats_temp := initialize_stats_zero calloc_stats
          let temp := realloc t.client_sockets (realloc_count SIZEOF_ClientData max_clients) e.fresh_client
          match temp[nfds_pred max_clients]? with
          | none => .fault
          | some _ =>
            let client_sockets := temp.set (nfds_pred max_clients) ⟨e.new_socket, some stats_temp⟩
            if e.realloc_fds_ok = false then .exit EXIT_FAILURE
            else
              let new_fds :=
                realloc t.fds (realloc_count SIZEOF_pollfd ((max_clients + 1) % UINT64_SIZE)) e.fresh_pollfd
              match new_fds[max_clients]? with
              | none => .fault
              | some entry =>
                .ok { client_sockets := client_sockets
                      fds := new_fds.set max_clients { entry with fd := e.new_socket, events := POLLIN }
                      max_clients := max_clients
                      log := t.log }
    else .ok t

/-- What the environment decides while one ready connection is handled: the outcomes of the
header read and of the body read. -/
structure ClientInput where
  header : ReadResult
  body : ReadResult
deriving DecidableEq, Repr

/-- The count `(size_t)word_length` passed to the body read, for the header byte stored in the
plain `char` variable `word_length`. -/
def body_read_count (p : Platform) (header_byte : Nat) : Nat :=
  to_size_t (char_of_byte p header_byte)

/-- The body of the loop of `handle_client_data` for index `i`. -/
def handle_client_event (p : Platform) (t : Server) (i : Nat) (inp : ClientInput) : Run Server :=
  match t.client_sockets[i]? with
  | none => .fault
  | some c =>
    if c.socket_fd = -1 then .ok t
    else
      match t.fds[i + 1]? with
      | none => .fault
      | some entry =>
        if entry.revents &&& POLLIN ≠ 0 then
          let header := sys_read inp.header 1
          if header.1 ≤ 0 then handle_client_disconnection t i
          else
            let body := sys_read inp.body (body_read_count p (header.2.headD 0))
            if body.1 ≤ 0 then handle_client_disconnection t i
            else if MAX_WORD_LEN ≤ body.2.length then .fault
            else
              match c.stats with
              | none => .fault
              | some s =>
                .ok { t with
                      client_sockets := t.client_sockets.set i { c with stats := some (record_word p s body.2) }
                      log := t.log ++ [Effect.received_word c.socket_fd (body.2.take (strlen (body.2 ++ [0])))] }
        else .ok t

/-- The read outcomes the environment has for the connection at index `i`, looked up by its
descriptor. -/
def input_at (env : Int → ClientInput) (t : Server) (i : Nat) : ClientInput :=
  match t.client_sockets[i]? with
  | some c => env c.socket_fd
  | none => ⟨.error, .error⟩

/-- The loop of `handle_client_data` from index `i` on.  The condition `i < *max_clients` is
evaluated against the current table at every iteration; `fuel` bounds the number of iterations
(`max_clients` never grows during the loop, so the initial `max_clients` suffices). -/
def handle_client_data_from (p : Platform) (env : Int → ClientInput) : Nat → Nat → Server → Run Server
  | 0, _, t => .ok t
  | fuel + 1, i, t =>
    if i < t.max_clients then
      match handle_client_event p t i (input_at env t i) with
      | .ok t1 => handle_client_data_from p env fuel (i + 1) t1
      | .exit status => .exit status
      | .fault => .fault
    else .ok t

/-- The function `handle_client_data`. -/
def handle_client_data (p : Platform) (env : Int → ClientInput) (t : Server) : Run Server :=
  handle_client_data_from p env t.max_clients 0 t

/-- The effect of a successful `poll(fds, nfds, -1)` on the watch entries from position `i` on:
the `revents` member of each of the first `nfds` entries is overwritten. -/
def poll_revents (revents : Nat → Nat) (nfds : Nat) : Nat → List pollfd → List pollfd
  | _, [] => []
  | i, entry :: rest =>
    (if i < nfds then { entry with revents := revents i } else entry) :: poll_revents revents nfds (i + 1) rest

/-- The table after `poll(fds, max_clients + 1, -1)` returned a non-negative value. -/
def poll_ready (t : Server) (revents : Nat → Nat) : Server :=
  { t with fds := poll_revents revents (t.max_clients + 1) 0 t.fds }


/-! ## `server.c`: the main loop -/

/-- Outcome of the call `poll(fds, max_clients + 1, -1)`: it reports `activity` ready entries and
has written their `revents`; or a signal handler ran while the call was blocked and the call
returns `-1` with `errno = EINTR`; or it fails with another error. -/
inductive PollResult where
  | ready (activity : Nat) (revents : Nat → Nat)
  | interrupted
  | failed

/-- The value `poll` returns. -/
def poll_return : PollResult → Int
  | .ready activity _ => (activity : Int)
  | .interrupted => -1
  | .failed => -1

/-- Whether `sigint_handler` ran during the `poll` call: the only installed handler is the one
for `SIGINT`, which stores 1 in `exit_flag`. -/
def poll_sets_exit_flag : PollResult → Bool
  | .interrupted => true
  | _ => false

/-- What the environment decides during one iteration of the loop of `main`: the outcome of `poll`,
of the accept, of the reads, and whether `SIGINT` is delivered after `poll` has returned and before
the loop condition is evaluated again. -/
structure Iteration where
  poll : PollResult
  accept : AcceptEnv
  clients : Int → ClientInput
  sigint_after_poll : Bool

/-- How a run of `main` ends: the process terminates with a status, it stays blocked in `poll`
because the environment produces no further event, or it crashes. -/
inductive Termination where
  | exited (status : Nat)
  | blocked_in_poll
  | crashed
deriving DecidableEq, Repr

/-- The loop `for (i = 0; i < max_clients; i++) if (fd > 0) socket_close(fd);` over the clients in
use: `false` when a `close` fails, in which case `socket_close` calls `exit(EXIT_FAILURE)`. -/
def close_clients (close_ok : Int → Bool) : List ClientData → Bool
  | [] => true
  | c :: rest =>
    if 0 < c.socket_fd then
      if close_ok c.socket_fd = true then close_clients close_ok rest else false
    else close_clients close_ok rest

/-- The statements of `main` after the loop. -/
def terminal_cleanup (close_ok : Int → Bool) (sockfd : Int) (t : Server) : Termination :=
  if t.client_sockets.length < t.max_clients then .crashed
  else if close_clients close_ok (t.client_sockets.take t.max_clients) = false then .exited EXIT_FAILURE
  else if close_ok sockfd = false then .exited EXIT_FAILURE
  else .exited EXIT_SUCCESS

/-- The loop `while (!exit_flag)` of `main` followed by the cleanup, run against the list of
iterations the environment provides. -/
def main_loop (p : Platform) (close_ok : Int → Bool) (sockfd : Int) :
    List Iteration → Bool → Server → Termination
  | [], exit_flag, t =>
    if exit_flag = true then terminal_cleanup close_ok sockfd t else .blocked_in_poll
  | it :: rest, exit_flag, t =>
    if exit_flag = true then terminal_cleanup close_ok sockfd t
    else
      let activity := poll_return it.poll
      if activity < 0 then .exited EXIT_FAILURE
      else
        let polled := match it.poll with
          | .ready _ revents => poll_ready t revents
          | _ => t
        match handle_new_connection polled it.accept with
        | .exit status => .exited status
        | .fault => .crashed
        | .ok accepted =>
          if accepted.client_sockets.isEmpty = true then
            main_loop p close_ok sockfd rest it.sigint_after_poll accepted
          else
            match handle_client_data p it.clients accepted with
            | .exit status => .exited status
            | .fault => .crashed
            | .ok handled => main_loop p close_ok sockfd rest it.sigint_after_poll handled

/-! ## `file.h` -/

/-- Outcome of one `read` call inside `read_fully`: bytes available (none at end of stream), an
interruption by a signal (`errno = EINTR`), or another error. -/
inductive ReadOutcome where
  | data (bytes : List Nat)
  | eintr
  | error
deriving DecidableEq, Repr

/-- What `read_fully` leaves behind: its return value, the bytes stored in the buffer, and the
outcomes not yet consumed from the stream. -/
structure ReadFully where
  ret : Int
  stored : List Nat
  rest : List ReadOutcome
deriving DecidableEq, Repr

/-- The function `read_fully(fd, buf, count)`, with `stored` the bytes read so far (`total` is
their number).  Each `read` asks for `count - total` bytes.  End of stream stays in the stream.
`none` when the loop is still waiting and the stream has no further outcome. -/
def read_fully_from (count : Nat) : List ReadOutcome → List Nat → Option ReadFully
  | stream, stored =>
    if stored.length < count then
      match stream with
      | [] => none
      | .eintr :: rest => read_fully_from count rest stored
      | .error :: rest => some ⟨-1, stored, rest⟩
      | .data bytes :: rest =>
        if bytes = [] then some ⟨(stored.length : Nat), stored, .data [] :: rest⟩
        else if bytes.length ≤ count - stored.length then read_fully_from count rest (stored ++ bytes)
        else
          some ⟨((stored ++ bytes.take (count - stored.length)).length : Nat),
            stored ++ bytes.take (count - stored.length),
            .data (bytes.drop (count - stored.length)) :: rest⟩
    else some ⟨(stored.length : Nat), stored, stream⟩

/-- The function `read_fully(fd, buf, count)`. -/
def read_fully (count : Nat) (stream : List ReadOutcome) : Option ReadFully :=
  read_fully_from count stream []

/-! ## `text_statistics.h`: the client's `read_stats` -/

/-- The value `sizeof(TextStatistics)`: 2 + 256 counters of 8 bytes. -/
def SIZEOF_TextStatistics : Nat := (2 + 256) * 8

/-- The 8 bytes of a `size_t` object in memory order. -/
def size_t_bytes (p : Platform) (n : Nat) : List Nat :=
  let le := (List.range 8).map (fun i => n / 256 ^ i % 256)
  if p.little_endian = true then le else le.reverse

/-- The value of a `size_t` object with the given bytes in memory order. -/
def size_t_value (p : Platform) (bytes : List Nat) : Nat :=
  (if p.little_endian = true then bytes else bytes.reverse).foldr (fun b acc => b + 256 * acc) 0

/-- What a call of `handleError` does. -/
structure ErrorHandling where
  message : String
  freed_stats : Bool
  closed_socket : Bool
  process_exited : Bool
deriving DecidableEq, Repr

/-- The function `handleError`: the message is printed, `stats` is freed when non-null, the
socket is closed when non-negative, and both branches of `if (exitProgram)` return to the caller. -/
def handleError (errorMessage : String) (sockfd : Int) (stats_non_null : Bool) (exitProgram : Bool) : ErrorHandling :=
  { message := errorMessage
    freed_stats := stats_non_null
    closed_socket := decide (0 ≤ sockfd)
    process_exited := if exitProgram = true then false else false }

/-- How `read_stats` ends: it prints statistics from its buffer after the line `Bytes read n`;
or it goes on after `handleError` released the buffer or goes beyond it (undefined behaviour);
or it is still waiting for input. -/
inductive StatsOutcome where
  | printed (bytes_read : Int) (buffer : List Nat) (errors : List ErrorHandling)
  | undefined (errors : List ErrorHandling)
  | blocked
deriving DecidableEq, Repr

/-- The function `read_stats(sockfd)` when `calloc` and `realloc` succeed; `fill` is the
indeterminate content of the bytes `realloc` adds. -/
def read_stats (p : Platform) (sockfd : Int) (fill : Nat) (stream : List ReadOutcome) : StatsOutcome :=
  let stats := List.replicate SIZEOF_TextStatistics 0
  match read_fully 8 stream with
  | none => .blocked
  | some length_read =>
    if length_read.ret ≤ 0 then
      .undefined [handleError "Failed to read stats length" sockfd true true]
    else
      let stats_len :=
        size_t_value p (length_read.stored ++ (size_t_bytes p SIZEOF_TextStatistics).drop length_read.stored.length)
      let stats := realloc stats stats_len fill
      match read_fully stats_len length_read.rest with
      | none => .blocked
      | some data_read =>
        if data_read.ret ≤ 0 then
          .undefined [handleError "Failed to read stats data" sockfd true true]
        else if stats_len < SIZEOF_TextStatistics then .undefined []
        else .printed data_read.ret (data_read.stored ++ stats.drop data_read.stored.length) []

/-- The end of the client's `main`: `read_stats`, then `socket_close`, which exits with
`EXIT_FAILURE` when `close` fails, then `return EXIT_SUCCESS`. -/
def client_finish (p : Platform) (sockfd : Int) (fill : Nat) (close_ok : Bool)
    (stream : List ReadOutcome) : Termination :=
  match read_stats p sockfd fill stream with
  | .printed _ _ _ => if close_ok = true then .exited EXIT_SUCCESS else .exited EXIT_FAILURE
  | .undefined _ => .crashed
  | .blocked => .blocked_in_poll

/-! ## `client.c`: the send loop -/

/-- `LINE_LEN` of `client.c`. -/
def LINE_LEN : Nat := 1024

/-- The bytes one `fgets` call stores when it may store `room` more bytes, and the rest of the
file: reading stops after a newline, at the end of the file, or when there is no room left. -/
def fgets_take : Nat → List Nat → List Nat × List Nat
  | 0, file => ([], file)
  | _ + 1, [] => ([], [])
  | room + 1, c :: rest =>
    if c = 10 then ([c], rest)
    else ((c :: (fgets_take room rest).1), (fgets_take room rest).2)

/-- The libc call `fgets(line, size, file)`: `none` for `NULL` (end of file, nothing read),
otherwise the bytes stored before the terminating NUL and the rest of the file.  At most
`size - 1` bytes are stored. -/
def fgets (size : Nat) (file : List Nat) : Option (List Nat × List Nat) :=
  if file = [] then none else some (fgets_take (size - 1) file)

/-- The C string in a buffer: its bytes before the first NUL. -/
def c_string : List Nat → List Nat
  | [] => []
  | c :: cs => if c = 0 then [] else c :: c_string cs

/-- Membership in the delimiter set `" \t\n"` passed to `strtok_r`. -/
def is_delimiter (c : Nat) : Bool := c == 32 || c == 9 || c == 10

/-- Scan of a C string for `strtok_r`: the token that starts at the first byte (empty when that
byte is a delimiter or the string is empty), and the tokens after it. -/
def strtok_scan : List Nat → List Nat × List (List Nat)
  | [] => ([], [])
  | c :: cs =>
    let r := strtok_scan cs
    if is_delimiter c = true then ([], if r.1 = [] then r.2 else r.1 :: r.2)
    else (c :: r.1, r.2)

/-- The successive results of `strtok_r(line, " \t\n", &saveptr)` and
`strtok_r(NULL, " \t\n", &saveptr)`: the maximal runs of non-delimiter bytes. -/
def strtok_r (line : List Nat) : List (List Nat) :=
  let r := strtok_scan line
  if r.1 = [] then r.2 else r.1 :: r.2

/-- The bytes `send_word(sockfd, word, length)` writes when its `send` calls succeed: the length
byte, then, when `length > 0`, the first `length` bytes of `word`. -/
def send_word (word : List Nat) (length : Nat) : List Nat :=
  [length] ++ (if 0 < length then word.take length else [])

/-- The inner loop of the client's `main` over the tokens of one line: the frames sent, and
whether a token failed the test `word_len > UINT8_MAX` (the process then calls
`exit(EXIT_FAILURE)` without sending that token or what follows). -/
def send_tokens : List (List Nat) → List (List Nat) × Bool
  | [] => ([], false)
  | word :: more =>
    if UINT8_MAX < strlen (word ++ [0]) then ([], true)
    else (send_word word (to_uint8 (strlen (word ++ [0]))) :: (send_tokens more).1, (send_tokens more).2)

/-- What the send loop of the client did: the frames written to the socket, in order, and the
status passed to `exit` when the loop terminated the process. -/
structure ClientSend where
  frames : List (List Nat)
  exit_status : Option Nat
deriving DecidableEq, Repr

/-- The loop `while (fgets(line, sizeof(line), file) != NULL)` of the client's `main` over the
remaining bytes of the file.  Every iteration consumes at least one byte, so `fuel` equal to the
length of the file is enough; `none` when the fuel runs out. -/
def client_send_loop : Nat → List Nat → Option ClientSend
  | 0, file => if file = [] then some ⟨[], none⟩ else none
  | fuel + 1, file =>
    match fgets LINE_LEN file with
    | none => some ⟨[], none⟩
    | some (line, rest) =>
      let sent := send_tokens (strtok_r (c_string line))
      if sent.2 = true then some ⟨sent.1, some EXIT_FAILURE⟩
      else
        match client_send_loop fuel rest with
        | none => none
        | some later => some ⟨sent.1 ++ later.frames, later.exit_status⟩

/-- The send loop of the client's `main` on a whole file. -/
def client_send (file : List Nat) : Option ClientSend :=
  client_send_loop file.length file


/-! ## States of the connection table -/

/-- Index alignment: `fds[0]` watches the listening socket `sockfd`, and for every `i` below
`max_clients` the watch entry `fds[i + 1]` carries the descriptor of `client_sockets[i]` and the
event mask `POLLIN`. -/
def aligned (sockfd : Int) (t : Server) : Prop :=
  (∃ listening, t.fds[0]? = some listening ∧ listening.fd = sockfd) ∧
  ∀ i, i < t.max_clients →
    ∃ c entry, t.client_sockets[i]? = some c ∧ t.fds[i + 1]? = some entry ∧
      entry.fd = c.socket_fd ∧ entry.events = POLLIN

/-- A well-formed table: the client array fits in the address space, every connection in use
owns statistics, and the two arrays are aligned. -/
structure well_formed (sockfd : Int) (t : Server) : Prop where
  fits : t.client_sockets.length * SIZEOF_ClientData < UINT64_SIZE
  owns : ∀ i, i < t.max_clients → ∀ c, t.client_sockets[i]? = some c → c.stats ≠ none
  align : aligned sockfd t

/-- The tables the server can reach: from `initialize_pollfds`, by a successful `poll`, by
`handle_new_connection`, by `handle_client_disconnection` on a connection in use, and by the
handling of one connection's event in `handle_client_data`. -/
inductive Reachable (p : Platform) (sockfd : Int) : Server → Prop where
  | init (garbage : Nat) : Reachable p sockfd (initialize_pollfds sockfd garbage)
  | poll {t : Server} (revents : Nat → Nat) :
      Reachable p sockfd t → Reachable p sockfd (poll_ready t revents)
  | accept {t t1 : Server} (e : AcceptEnv) :
      Reachable p sockfd t → handle_new_connection t e = .ok t1 → Reachable p sockfd t1
  | disconnect {t t1 : Server} (client_index : Nat) :
      Reachable p sockfd t → client_index < t.max_clients →
      handle_client_disconnection t client_index = .ok t1 → Reachable p sockfd t1
  | event {t t1 : Server} (i : Nat) (inp : ClientInput) :
      Reachable p sockfd t → i < t.max_clients →
      handle_client_event p t i inp = .ok t1 → Reachable p sockfd t1

/-- The connections in use, in table order. -/
def connections (t : Server) : List ClientData := t.client_sockets.take t.max_clients

/-- The environment of an accept that succeeds with descriptor `fd`. -/
def accept_of (fd : Int) : AcceptEnv :=
  { new_socket := fd, realloc_clients_ok := true, calloc_ok := true, realloc_fds_ok := true
    fresh_client := ⟨0, none⟩, fresh_pollfd := ⟨0, 0, 0⟩ }

/-- A table with listening socket 3 and two connections, 4 and 5, both reported ready. -/
def two_clients : Server :=
  { client_sockets := [⟨4, some calloc_stats⟩, ⟨5, some calloc_stats⟩]
    fds := [⟨3, POLLIN, 0⟩, ⟨4, POLLIN, POLLIN⟩, ⟨5, POLLIN, POLLIN⟩]
    max_clients := 2
    log := [] }

/-- The statistics of the connection at index `i`, when it has some. -/
def stats_at (t : Server) (i : Nat) : Option TextStatistics :=
  match t.client_sockets[i]? with
  | some c => c.stats
  | none => none

/-- The accumulator of a connection that starts zeroed and receives the words "Hello", "hello"
and "WORLD", in this order. -/
def hello_world_stats (p : Platform) : TextStatistics :=
  [ascii "Hello", ascii "hello", ascii "WORLD"].foldl (record_word p) calloc_stats

/-- The table with its arrays cut down to the slots in use for `n` connections: `n` client slots
and `n + 1` watch slots. -/
def cut_to (t : Server) (n : Nat) : Server :=
  { t with client_sockets := t.client_sockets.take n, fds := t.fds.take (n + 1) }

/-- A file of one line: four words of 200 bytes `a`, each followed by a space, then one word of
400 bytes `b` and a newline.  The long word starts at offset 804 of the line. -/
def long_word_file : List Nat :=
  (List.replicate 200 97 ++ [32]) ++ (List.replicate 200 97 ++ [32]) ++
  (List.replicate 200 97 ++ [32]) ++ (List.replicate 200 97 ++ [32]) ++
  List.replicate 400 98 ++ [10]

/-! ## Notions of the specification and example runs -/

/-- The lowercase version of a word in the words of the specification: the ASCII letters `A` to
`Z` are mapped to `a` to `z`, every other byte is unchanged. -/
def lowercase (w : List Nat) : List Nat :=
  w.map (fun b => if 65 ≤ b ∧ b ≤ 90 then b + 32 else b)

/-- The bytes a stream of read outcomes supplies, in order, before its first error or end of
stream; interruptions supply nothing. -/
def supplied : List ReadOutcome → List Nat
  | [] => []
  | .data bytes :: rest => if bytes = [] then [] else bytes ++ supplied rest
  | .eintr :: rest => supplied rest
  | .error :: _ => []

/-- What ends the bytes a stream supplies: a genuine error, the end of the stream, or nothing
(the outcomes run out while the stream is still open). -/
inductive StreamEnd where
  | io_error
  | end_of_stream
  | still_open
deriving DecidableEq, Repr

/-- The end of the bytes a stream of read outcomes supplies. -/
def stream_end : List ReadOutcome → StreamEnd
  | [] => .still_open
  | .data bytes :: rest => if bytes = [] then .end_of_stream else stream_end rest
  | .eintr :: rest => stream_end rest
  | .error :: _ => .io_error

/-- Read outcomes of a pass in which the connection with descriptor 4 is at end of stream and
every other connection has `inp` pending. -/
def closing_4 (inp : ClientInput) : Int → ClientInput :=
  fun fd => if fd = 4 then ⟨.data [], .error⟩ else inp

/-- A `poll` result that reports `POLLIN` for the watch entry `k` only. -/
def ready_only (k : Nat) : Nat → Nat := fun i => if i = k then POLLIN else 0

/-- The read outcomes of a connection that delivers the frame of the word `Hi`. -/
def hi_frame : ClientInput := ⟨.data [2], .data [72, 105]⟩

/-- The read outcomes of a connection at end of stream. -/
def at_end_of_stream : ClientInput := ⟨.data [], .data []⟩

/-- One iteration of the loop of `main` when `poll` returned a non-negative value:
`handle_new_connection`, then `handle_client_data` when `client_sockets` is not `NULL`. -/
def loop_body (p : Platform) (t : Server) (revents : Nat → Nat) (accept : AcceptEnv)
    (clients : Int → ClientInput) : Run Server :=
  match handle_new_connection (poll_ready t revents) accept with
  | .exit status => .exit status
  | .fault => .fault
  | .ok accepted =>
    if accepted.client_sockets.isEmpty = true then .ok accepted
    else handle_client_data p clients accepted

/-! ## `client.c`: pacing -/

/-- `MILLISECONDS_IN_NANOSECONDS` of `client.c`. -/
def MILLISECONDS_IN_NANOSECONDS : Nat := 1000000

/-- `MIN_DELAY_MILLISECONDS` of `client.c`. -/
def MIN_DELAY_MILLISECONDS : Nat := 500

/-- `MAX_ADDITIONAL_NANOSECONDS` of `client.c`. -/
def MAX_ADDITIONAL_NANOSECONDS : Nat := 1000000000

/-- `RAND_MAX` of the GNU C library: `rand()` returns a value from 0 to `RAND_MAX`. -/
def RAND_MAX : Nat := 2147483647

/-- The struct `timespec`. -/
structure timespec where
  tv_sec : Int
  tv_nsec : Int
deriving DecidableEq, Repr

/-- The delay `send_word` builds after a word, for the value `r` returned by `rand()`:
`tv_sec = 0` and `tv_nsec = MIN_DELAY_MILLISECONDS * MILLISECONDS_IN_NANOSECONDS +
(rand() % MAX_ADDITIONAL_NANOSECONDS)`.  The sum stays below `2^31`, so the `int` arithmetic does
not overflow. -/
def send_word_delay (r : Nat) : timespec :=
  { tv_sec := 0
    tv_nsec := ((MIN_DELAY_MILLISECONDS * MILLISECONDS_IN_NANOSECONDS + r % MAX_ADDITIONAL_NANOSECONDS : Nat) : Int) }

/-- Whether `nanosleep` accepts a request: POSIX has it fail with `EINVAL`, without sleeping, when
`tv_nsec` is not in the range 0 to 999999999 or `tv_sec` is negative. -/
def nanosleep_accepts (request : timespec) : Bool :=
  decide (0 ≤ request.tv_sec ∧ 0 ≤ request.tv_nsec ∧ request.tv_nsec ≤ 999999999)

/-! ## Array shifting and disconnection -/

theorem nfds_pred_eq (n : Nat) (h1 : 1 ≤ n) (h2 : n < UINT64_SIZE) : nfds_pred n = n - 1 := by
  unfold nfds_pred UINT64_SIZE at *
  omega

theorem shift_down_length {α : Type} (steps : Nat) :
    ∀ (xs ys : List α) (i : Nat), shift_down steps xs i = some ys → ys.length = xs.length := by
  induction steps with
  | zero =>
    intro xs ys i h
    simp [shift_down] at h
    rw [h]
  | succ n ih =>
    intro xs ys i h
    unfold shift_down at h
    cases hv : xs[i + 1]? with
    | none => simp [hv] at h
    | some v =>
      simp only [hv] at h
      rw [ih _ _ _ h, List.length_set]

theorem shift_down_getElem? {α : Type} (steps : Nat) :
    ∀ (xs ys : List α) (i : Nat), shift_down steps xs i = some ys →
      ∀ j, ys[j]? = if i ≤ j ∧ j < i + steps then xs[j + 1]? else xs[j]? := by
  induction steps with
  | zero =>
    intro xs ys i h j
    simp [shift_down] at h
    subst h
    rw [if_neg (by omega)]
  | succ n ih =>
    intro xs ys i h j
    unfold shift_down at h
    cases hv : xs[i + 1]? with
    | none => simp [hv] at h
    | some v =>
      simp only [hv] at h
      rw [ih _ _ _ h j]
      have hlen : i + 1 < xs.length := by
        rcases List.getElem?_eq_some.mp hv with ⟨hl, _⟩
        exact hl
      by_cases h1 : i + 1 ≤ j ∧ j < i + 1 + n
      · have h2 : i ≤ j ∧ j < i + (n + 1) := by omega
        rw [if_pos h1, if_pos h2, List.getElem?_set_ne (by omega)]
      · rw [if_neg h1]
        by_cases h3 : j = i
        · subst h3
          have h2 : j ≤ j ∧ j < j + (n + 1) := by omega
          rw [if_pos h2, List.getElem?_set_self (by omega), hv]
        · have h2 : ¬ (i ≤ j ∧ j < i + (n + 1)) := by omega
          rw [if_neg h2, List.getElem?_set_ne (by omega)]

theorem shift_down_some {α : Type} (steps : Nat) :
    ∀ (xs : List α) (i : Nat), (steps = 0 ∨ i + steps < xs.length) →
      ∃ ys, shift_down steps xs i = some ys := by
  induction steps with
  | zero => intro xs i _; exact ⟨xs, rfl⟩
  | succ n ih =>
    intro xs i h
    have hlen : i + (n + 1) < xs.length := by omega
    unfold shift_down
    have hv : xs[i + 1]? = some (xs[i + 1]) := List.getElem?_eq_getElem (by omega)
    rw [hv]
    apply ih
    rw [List.length_set]
    omega


theorem disconnection_spec (t : Server) (k : Nat) (c : ClientData) (s : TextStatistics)
    (hn : t.max_clients < UINT64_SIZE) (hk : k < t.max_clients)
    (hcs : t.max_clients ≤ t.client_sockets.length) (hfds : t.max_clients + 1 ≤ t.fds.length)
    (hc : t.client_sockets[k]? = some c) (hs : c.stats = some s) :
    ∃ t1, handle_client_disconnection t k = .ok t1 ∧
      t1.max_clients = t.max_clients - 1 ∧
      t1.client_sockets.length = t.client_sockets.length ∧
      t1.fds.length = t.fds.length ∧
      t1.log = t.log ++ [Effect.sent_stats c.socket_fd s, Effect.printed_stats s, Effect.closed c.socket_fd] ∧
      (∀ j, t1.client_sockets[j]? =
        if k ≤ j ∧ j < t.max_clients - 1 then t.client_sockets[j + 1]?
        else if j = k then some { c with stats := none } else t.client_sockets[j]?) ∧
      (∀ j, t1.fds[j]? = if k + 1 ≤ j ∧ j < t.max_clients then t.fds[j + 1]? else t.fds[j]?) := by
  have hp : nfds_pred t.max_clients = t.max_clients - 1 := nfds_pred_eq _ (by omega) hn
  obtain ⟨cs1, hcs1⟩ := shift_down_some (t.max_clients - 1 - k)
    (t.client_sockets.set k { c with stats := none }) k (by rw [List.length_set]; omega)
  obtain ⟨fds1, hfds1⟩ := shift_down_some (t.max_clients - 1 + 1 - (k + 1)) t.fds (k + 1) (by omega)
  refine ⟨⟨cs1, fds1, t.max_clients - 1,
    t.log ++ write_stats c ++ [Effect.printed_stats s, Effect.closed c.socket_fd]⟩, ?_, rfl, ?_, ?_, ?_, ?_, ?_⟩
  · simp only [handle_client_disconnection, hc, hs, hp, hcs1, hfds1]
  · simp [shift_down_length _ _ _ _ hcs1]
  · simp [shift_down_length _ _ _ _ hfds1]
  · simp [write_stats, hs]
  · intro j
    have := shift_down_getElem? _ _ _ _ hcs1 j
    simp only [this]
    have hklen : k < t.client_sockets.length := by omega
    by_cases h1 : k ≤ j ∧ j < t.max_clients - 1
    · have h2 : k ≤ j ∧ j < k + (t.max_clients - 1 - k) := by omega
      rw [if_pos h1, if_pos h2, List.getElem?_set_ne (by omega)]
    · have h2 : ¬ (k ≤ j ∧ j < k + (t.max_clients - 1 - k)) := by omega
      rw [if_neg h1, if_neg h2]
      by_cases h3 : j = k
      · subst h3
        rw [if_pos rfl, List.getElem?_set_self hklen]
      · rw [if_neg h3, List.getElem?_set_ne (by omega)]
  · intro j
    have := shift_down_getElem? _ _ _ _ hfds1 j
    simp only [this]
    by_cases h1 : k + 1 ≤ j ∧ j < t.max_clients
    · have h2 : k + 1 ≤ j ∧ j < k + 1 + (t.max_clients - 1 + 1 - (k + 1)) := by omega
      rw [if_pos h1, if_pos h2]
    · have h2 : ¬ (k + 1 ≤ j ∧ j < k + 1 + (t.max_clients - 1 + 1 - (k + 1))) := by omega
      rw [if_neg h1, if_neg h2]

/-! ## Well-formed tables are preserved -/

theorem realloc_length {α : Type} (xs : List α) (n : Nat) (fill : α) :
    (realloc xs n fill).length = n := by
  simp [realloc]
  omega

theorem realloc_getElem? {α : Type} (xs : List α) (n : Nat) (fill : α) (j : Nat)
    (hj : j < n) (hx : j < xs.length) : (realloc xs n fill)[j]? = xs[j]? := by
  unfold realloc
  rw [List.getElem?_append_left (by simp; omega), List.getElem?_take_of_lt hj]

theorem realloc_count_fits (size n : Nat) :
    realloc_count size n * size < UINT64_SIZE := by
  unfold realloc_count
  have h1 : size * n % UINT64_SIZE / size * size ≤ size * n % UINT64_SIZE := Nat.div_mul_le_self _ _
  have h2 : size * n % UINT64_SIZE < UINT64_SIZE := Nat.mod_lt _ (by decide)
  omega

theorem poll_revents_getElem? (revents : Nat → Nat) (nfds : Nat) :
    ∀ (xs : List pollfd) (i j : Nat),
      (poll_revents revents nfds i xs)[j]? =
        (xs[j]?).map (fun entry => if i + j < nfds then { entry with revents := revents (i + j) } else entry) := by
  intro xs
  induction xs with
  | nil => intro i j; simp [poll_revents]
  | cons x xs ih =>
    intro i j
    cases j with
    | zero => simp [poll_revents]
    | succ j =>
      simp only [poll_revents, List.getElem?_cons_succ, ih]
      have : i + 1 + j = i + (j + 1) := by omega
      rw [this]

theorem well_formed_bounds {sockfd : Int} {t : Server} (h : well_formed sockfd t) :
    t.max_clients ≤ t.client_sockets.length ∧ t.max_clients + 1 ≤ t.fds.length ∧
      t.max_clients < UINT64_SIZE := by
  have h1 : t.max_clients ≤ t.client_sockets.length := by
    by_cases h0 : t.max_clients = 0
    · omega
    · obtain ⟨c, e, hc, _, _, _⟩ := h.align.2 (t.max_clients - 1) (by omega)
      obtain ⟨hl, _⟩ := List.getElem?_eq_some.mp hc
      omega
  have h2 : t.max_clients + 1 ≤ t.fds.length := by
    by_cases h0 : t.max_clients = 0
    · obtain ⟨l, hl, _⟩ := h.align.1
      obtain ⟨hl, _⟩ := List.getElem?_eq_some.mp hl
      omega
    · obtain ⟨c, e, _, he, _, _⟩ := h.align.2 (t.max_clients - 1) (by omega)
      obtain ⟨hl, _⟩ := List.getElem?_eq_some.mp he
      omega
  have h3 := h.fits
  unfold SIZEOF_ClientData at h3
  refine ⟨h1, h2, ?_⟩
  omega

theorem well_formed_init (sockfd : Int) (garbage : Nat) :
    well_formed sockfd (initialize_pollfds sockfd garbage) := by
  refine ⟨by simp [initialize_pollfds, UINT64_SIZE], ?_, ?_, ?_⟩
  · intro i hi; simp [initialize_pollfds] at hi
  · exact ⟨_, rfl, rfl⟩
  · intro i hi; simp [initialize_pollfds] at hi

theorem well_formed_poll {sockfd : Int} {t : Server} (revents : Nat → Nat)
    (h : well_formed sockfd t) : well_formed sockfd (poll_ready t revents) := by
  refine ⟨h.fits, h.owns, ?_, ?_⟩
  · obtain ⟨l, hl, hfd⟩ := h.align.1
    refine ⟨if 0 + 0 < t.max_clients + 1 then { l with revents := revents (0 + 0) } else l, ?_, ?_⟩
    · simp only [poll_ready, poll_revents_getElem?, hl, Option.map_some']
    · split <;> simp [hfd]
  · intro i hi
    obtain ⟨c, e, hc, he, hfd, hev⟩ := h.align.2 i hi
    refine ⟨c, if 0 + (i + 1) < t.max_clients + 1 then { e with revents := revents (0 + (i + 1)) } else e,
      hc, ?_, ?_, ?_⟩
    · simp only [poll_ready, poll_revents_getElem?, he, Option.map_some']
    · split <;> simp [hfd]
    · split <;> simp [hev]


theorem well_formed_disconnect {sockfd : Int} {t t1 : Server} (k : Nat)
    (h : well_formed sockfd t) (hk : k < t.max_clients)
    (hr : handle_client_disconnection t k = .ok t1) : well_formed sockfd t1 := by
  obtain ⟨hb1, hb2, hb3⟩ := well_formed_bounds h
  obtain ⟨c, e, hc, he, hfd, hev⟩ := h.align.2 k hk
  obtain ⟨s, hs⟩ := Option.ne_none_iff_exists'.mp (h.owns k hk c hc)
  obtain ⟨t2, hr2, hmax, hlen, _, _, hcs, hfds⟩ := disconnection_spec t k c s hb3 hk hb1 hb2 hc hs
  rw [hr] at hr2
  cases hr2
  refine ⟨by rw [hlen]; exact h.fits, ?_, ?_, ?_⟩
  · intro i hi c1 hc1
    rw [hcs i] at hc1
    by_cases h1 : k ≤ i ∧ i < t.max_clients - 1
    · rw [if_pos h1] at hc1
      exact h.owns (i + 1) (by omega) c1 hc1
    · rw [if_neg h1, if_neg (by omega)] at hc1
      exact h.owns i (by omega) c1 hc1
  · obtain ⟨l, hl, hlfd⟩ := h.align.1
    refine ⟨l, ?_, hlfd⟩
    rw [hfds 0, if_neg (by omega)]
    exact hl
  · intro i hi
    rw [hcs i, hfds (i + 1)]
    by_cases h1 : k ≤ i ∧ i < t.max_clients - 1
    · rw [if_pos h1, if_pos (by omega)]
      exact h.align.2 (i + 1) (by omega)
    · rw [if_neg h1, if_neg (by omega), if_neg (by omega)]
      exact h.align.2 i (by omega)

theorem well_formed_accept {sockfd : Int} {t t1 : Server} (e : AcceptEnv)
    (h : well_formed sockfd t) (hr : handle_new_connection t e = .ok t1) :
    well_formed sockfd t1 := by
  obtain ⟨hb1, hb2, hb3⟩ := well_formed_bounds h
  obtain ⟨l, hl, hlfd⟩ := h.align.1
  have hfit := h.fits
  unfold SIZEOF_ClientData at hfit
  have hmax : (t.max_clients + 1) % UINT64_SIZE = t.max_clients + 1 := by
    apply Nat.mod_eq_of_lt
    unfold UINT64_SIZE at *
    omega
  have hpred : nfds_pred (t.max_clients + 1) = t.max_clients := by
    rw [nfds_pred_eq _ (by omega) (by unfold UINT64_SIZE at *; omega)]
    omega
  unfold handle_new_connection at hr
  simp only [hl, hmax, hpred] at hr
  split at hr
  · split at hr
    · cases hr
    · split at hr
      · cases hr
      · split at hr
        · cases hr
        · split at hr
          · cases hr
          · rename_i x hx
            split at hr
            · cases hr
            · split at hr
              · cases hr
              · rename_i entry hentry
                cases hr
                have hlen1 : t.max_clients <
                    (realloc t.client_sockets (realloc_count SIZEOF_ClientData (t.max_clients + 1))
                      e.fresh_client).length := (List.getElem?_eq_some.mp hx).1
                rw [realloc_length] at hlen1
                have hlen2 : t.max_clients + 1 <
                    (realloc t.fds (realloc_count SIZEOF_pollfd ((t.max_clients + 1 + 1) % UINT64_SIZE))
                      e.fresh_pollfd).length := (List.getElem?_eq_some.mp hentry).1
                have hlen2b := hlen2
                rw [realloc_length] at hlen2
                refine ⟨?_, ?_, ?_, ?_⟩
                · simp only [List.length_set, realloc_length]
                  exact realloc_count_fits _ _
                · intro i hi c hc
                  simp only at hi hc
                  by_cases h1 : i = t.max_clients
                  · subst h1
                    rw [List.getElem?_set_self (by rw [realloc_length]; exact hlen1)] at hc
                    cases hc
                    simp
                  · rw [List.getElem?_set_ne (by omega), realloc_getElem? _ _ _ _ (by omega) (by omega)] at hc
                    exact h.owns i (by omega) c hc
                · refine ⟨l, ?_, hlfd⟩
                  simp only
                  rw [List.getElem?_set_ne (by omega), realloc_getElem? _ _ _ _ (by omega) (by omega)]
                  exact hl
                · intro i hi
                  simp only at hi ⊢
                  by_cases h1 : i = t.max_clients
                  · subst h1
                    rw [List.getElem?_set_self (by rw [realloc_length]; exact hlen1),
                      List.getElem?_set_self hlen2b]
                    exact ⟨_, _, rfl, rfl, rfl, rfl⟩
                  · rw [List.getElem?_set_ne (by omega), List.getElem?_set_ne (by omega),
                      realloc_getElem? _ _ _ _ (by omega) (by omega),
                      realloc_getElem? _ _ _ _ (by omega) (by omega)]
                    exact h.align.2 i (by omega)
  · cases hr
    exact h


theorem handle_client_event_ready (p : Platform) (t : Server) (i : Nat) (inp : ClientInput)
    (c : ClientData) (entry : pollfd) (hc : t.client_sockets[i]? = some c)
    (hfd : c.socket_fd ≠ -1) (he : t.fds[i + 1]? = some entry)
    (hin : entry.revents &&& POLLIN ≠ 0) :
    handle_client_event p t i inp =
      if (sys_read inp.header 1).1 ≤ 0 then handle_client_disconnection t i
      else if (sys_read inp.body (body_read_count p ((sys_read inp.header 1).2.headD 0))).1 ≤ 0 then
        handle_client_disconnection t i
      else if MAX_WORD_LEN ≤
          (sys_read inp.body (body_read_count p ((sys_read inp.header 1).2.headD 0))).2.length then .fault
      else
        match c.stats with
        | none => .fault
        | some s =>
          .ok { t with
                client_sockets := t.client_sockets.set i
                  { c with stats := some (record_word p s
                      (sys_read inp.body (body_read_count p ((sys_read inp.header 1).2.headD 0))).2) }
                log := t.log ++ [Effect.received_word c.socket_fd
                  ((sys_read inp.body (body_read_count p ((sys_read inp.header 1).2.headD 0))).2.take
                    (strlen ((sys_read inp.body (body_read_count p ((sys_read inp.header 1).2.headD 0))).2 ++ [0])))] } := by
  unfold handle_client_event
  simp only [hc, he, if_neg hfd, if_pos hin]

theorem well_formed_store {sockfd : Int} {t : Server} (i : Nat) (c : ClientData)
    (s : TextStatistics) (log : List Effect) (h : well_formed sockfd t)
    (hc : t.client_sockets[i]? = some c) :
    well_formed sockfd { t with
      client_sockets := t.client_sockets.set i { c with stats := some s }, log := log } := by
  have hlt : i < t.client_sockets.length := (List.getElem?_eq_some.mp hc).1
  refine ⟨?_, ?_, ?_, ?_⟩
  · simp only [List.length_set]; exact h.fits
  · intro j hj c1 hc1
    simp only at hj hc1
    by_cases h1 : j = i
    · subst h1
      rw [List.getElem?_set_self hlt] at hc1
      cases hc1
      simp
    · rw [List.getElem?_set_ne (by omega)] at hc1
      exact h.owns j hj c1 hc1
  · exact h.align.1
  · intro j hj
    simp only at hj ⊢
    by_cases h1 : j = i
    · subst h1
      obtain ⟨c2, e, hc2, he, hfd, hev⟩ := h.align.2 j hj
      rw [hc] at hc2
      cases hc2
      rw [List.getElem?_set_self hlt]
      exact ⟨_, e, rfl, he, hfd, hev⟩
    · rw [List.getElem?_set_ne (by omega)]
      exact h.align.2 j hj

theorem well_formed_event {sockfd : Int} {t t1 : Server} (p : Platform) (i : Nat) (inp : ClientInput)
    (h : well_formed sockfd t) (hi : i < t.max_clients)
    (hr : handle_client_event p t i inp = .ok t1) : well_formed sockfd t1 := by
  obtain ⟨c, e, hc, he, _, _⟩ := h.align.2 i hi
  by_cases hfd : c.socket_fd = -1
  · simp only [handle_client_event, hc, if_pos hfd] at hr
    cases hr; exact h
  · by_cases hin : e.revents &&& POLLIN ≠ 0
    · rw [handle_client_event_ready p t i inp c e hc hfd he hin] at hr
      split at hr
      · exact well_formed_disconnect i h hi hr
      · split at hr
        · exact well_formed_disconnect i h hi hr
        · split at hr
          · cases hr
          · split at hr
            · cases hr
            · cases hr
              exact well_formed_store i c _ _ h hc
    · simp only [handle_client_event, hc, he, if_neg hfd, if_neg hin] at hr
      cases hr; exact h

theorem reachable_well_formed {p : Platform} {sockfd : Int} {t : Server}
    (h : Reachable p sockfd t) : well_formed sockfd t := by
  induction h with
  | init garbage => exact well_formed_init sockfd garbage
  | poll revents _ ih => exact well_formed_poll revents ih
  | accept e _ hr ih => exact well_formed_accept e ih hr
  | disconnect k _ hk hr ih => exact well_formed_disconnect k ih hk hr
  | event i inp _ hi hr ih => exact well_formed_event p i inp ih hi hr

/-! ## The accumulator -/

theorem strlen_eq_takeWhile (w : List Nat) :
    strlen (w ++ [0]) = (w.takeWhile (fun b => b != 0)).length := by
  induction w with
  | nil => simp [strlen]
  | cons c cs ih =>
    by_cases hc : c = 0
    · simp [strlen, hc]
    · simp [strlen, hc, List.takeWhile_cons, ih]

theorem strlen_no_nul (w : List Nat) (h : ∀ b ∈ w, b ≠ 0) : strlen (w ++ [0]) = w.length := by
  induction w with
  | nil => simp [strlen]
  | cons c cs ih =>
    have hc : c ≠ 0 := h c (by simp)
    have := ih (fun b hb => h b (by simp [hb]))
    simp [strlen, hc, this]

theorem foldl_record_word_counts (p : Platform) (bodies : List (List Nat)) :
    ∀ s : TextStatistics, s.word_count < UINT64_SIZE → s.character_count < UINT64_SIZE →
      (bodies.foldl (record_word p) s).word_count = (s.word_count + bodies.length) % UINT64_SIZE ∧
      (bodies.foldl (record_word p) s).character_count =
        (s.character_count + (bodies.map (fun w => strlen (w ++ [0]))).sum) % UINT64_SIZE := by
  induction bodies with
  | nil =>
    intro s h1 h2
    simp [Nat.mod_eq_of_lt h1, Nat.mod_eq_of_lt h2]
  | cons w ws ih =>
    intro s h1 h2
    have hM : 0 < UINT64_SIZE := by decide
    obtain ⟨ih1, ih2⟩ := ih (record_word p s w) (Nat.mod_lt _ hM) (Nat.mod_lt _ hM)
    simp only [List.foldl_cons, List.length_cons, List.map_cons, List.sum_cons]
    rw [ih1, ih2]
    simp only [record_word]
    constructor
    · rw [Nat.mod_add_mod]; congr 1; omega
    · rw [Nat.mod_add_mod]; congr 1; omega

/-- C2 (as amended): for every sequence of N word bodies stored by the update path of
`handle_client_data`, starting from a zeroed accumulator and short of 64-bit overflow,
`word_count` is N and `character_count` is the sum, over the bodies, of the number of bytes
before the body's first NUL byte; this is the byte length of the body when it has no NUL byte. -/
theorem word_and_character_counts (p : Platform) (bodies : List (List Nat))
    (hN : bodies.length < UINT64_SIZE)
    (hsum : (bodies.map (fun w => (w.takeWhile (fun b => b != 0)).length)).sum < UINT64_SIZE) :
    (bodies.foldl (record_word p) calloc_stats).word_count = bodies.length ∧
    (bodies.foldl (record_word p) calloc_stats).character_count =
      (bodies.map (fun w => (w.takeWhile (fun b => b != 0)).length)).sum ∧
    ((∀ w ∈ bodies, ∀ b ∈ w, b ≠ 0) →
      (bodies.foldl (record_word p) calloc_stats).character_count = (bodies.map List.length).sum) := by
  have hM : 0 < UINT64_SIZE := by decide
  obtain ⟨h1, h2⟩ := foldl_record_word_counts p bodies calloc_stats hM hM
  have hfun : (fun w : List Nat => strlen (w ++ [0])) = fun w => (w.takeWhile (fun b => b != 0)).length :=
    funext strlen_eq_takeWhile
  rw [hfun] at h2
  have e1 : (bodies.foldl (record_word p) calloc_stats).word_count = bodies.length := by
    rw [h1]; simp only [calloc_stats, Nat.zero_add]; exact Nat.mod_eq_of_lt hN
  have e2 : (bodies.foldl (record_word p) calloc_stats).character_count =
      (bodies.map (fun w => (w.takeWhile (fun b => b != 0)).length)).sum := by
    rw [h2]; simp only [calloc_stats, Nat.zero_add]; exact Nat.mod_eq_of_lt hsum
  refine ⟨e1, e2, ?_⟩
  intro hnul
  rw [e2]
  congr 1
  apply List.map_congr_left
  intro w hw
  rw [← strlen_eq_takeWhile, strlen_no_nul w (hnul w hw)]

theorem word_and_character_counts_witness :
    ([ascii "Hello", ascii "hello", ascii "WORLD"].foldl (record_word x86_64) calloc_stats).word_count = 3 ∧
    ([ascii "Hello", ascii "hello", ascii "WORLD"].foldl (record_word x86_64) calloc_stats).character_count = 15 := by
  have h := word_and_character_counts x86_64 [ascii "Hello", ascii "hello", ascii "WORLD"]
    (by decide) (by decide)
  exact ⟨h.1, h.2.1⟩

theorem character_count_stops_at_nul :
    ([[97, 0, 98]].foldl (record_word x86_64) calloc_stats).character_count = 1 ∧
    ([[97, 0, 98]].map List.length).sum = 3 ∧
    ¬ ([[97, 0, 98]].foldl (record_word x86_64) calloc_stats).character_count =
        ([[97, 0, 98]].map List.length).sum := by
  decide

/-! ## Character frequencies and index alignment -/

/-- C1: after the words "Hello", "hello", "WORLD" on a zeroed accumulator, on either byte order,
the counters of `h`, `l` and `w` in `character_frequency` are all still 0 (the specification gives 2, 5
and 1): the increments went, as 32-bit halves, to the counters of index 52, 54 and 59. -/
theorem hello_world_frequencies :
    ∀ char_signed little_endian : Bool,
      (hello_world_stats ⟨char_signed, little_endian⟩).character_frequency ⟨104, by decide⟩ = 0 ∧
      (hello_world_stats ⟨char_signed, little_endian⟩).character_frequency ⟨108, by decide⟩ = 0 ∧
      (hello_world_stats ⟨char_signed, little_endian⟩).character_frequency ⟨119, by decide⟩ = 0 ∧
      (hello_world_stats ⟨char_signed, little_endian⟩).character_frequency ⟨52, by decide⟩ =
        (if little_endian = true then 2 else 2 * UINT32_SIZE) ∧
      (hello_world_stats ⟨char_signed, little_endian⟩).character_frequency ⟨54, by decide⟩ =
        (if little_endian = true then 5 else 5 * UINT32_SIZE) ∧
      (hello_world_stats ⟨char_signed, little_endian⟩).character_frequency ⟨59, by decide⟩ =
        (if little_endian = true then UINT32_SIZE else 1) := by
  decide

/-- C3: in every table reachable from `initialize_pollfds` by `poll`, `handle_new_connection`,
`handle_client_disconnection` and event-handling steps, `fds[0]` is the listening descriptor and
every `fds[i + 1]` with `i < max_clients` carries the descriptor of `client_sockets[i]` and the
event mask `POLLIN`. -/
theorem index_alignment (p : Platform) (sockfd : Int) (t : Server)
    (h : Reachable p sockfd t) : aligned sockfd t :=
  (reachable_well_formed h).align

theorem initialize_stats_zero_calloc : initialize_stats_zero calloc_stats = calloc_stats := by
  simp [initialize_stats_zero, calloc_stats]

theorem two_clients_reachable (p : Platform) : Reachable p 3 two_clients := by
  have h0 := Reachable.poll (fun _ => POLLIN) (@Reachable.init p 3 0)
  have h1 : Reachable p 3
      { client_sockets := [⟨4, some (initialize_stats_zero calloc_stats)⟩]
        fds := [⟨3, POLLIN, POLLIN⟩, ⟨4, POLLIN, 0⟩]
        max_clients := 1
        log := [] } := Reachable.accept (accept_of 4) h0 rfl
  have h2 : Reachable p 3
      { client_sockets := [⟨4, some (initialize_stats_zero calloc_stats)⟩,
          ⟨5, some (initialize_stats_zero calloc_stats)⟩]
        fds := [⟨3, POLLIN, POLLIN⟩, ⟨4, POLLIN, 0⟩, ⟨5, POLLIN, 0⟩]
        max_clients := 2
        log := [] } := Reachable.accept (accept_of 5) h1 rfl
  have h3 := Reachable.poll (fun i => if i = 0 then 0 else POLLIN) h2
  rw [initialize_stats_zero_calloc] at h3
  exact h3

theorem index_alignment_witness : Reachable x86_64 3 two_clients ∧ aligned 3 two_clients :=
  ⟨two_clients_reachable x86_64, index_alignment x86_64 3 two_clients (two_clients_reachable x86_64)⟩

/-! ## Removal of a connection -/

/-- C4: for a table with `n = max_clients ≥ 1` connections and `k < n`,
`handle_client_disconnection` completes with `max_clients = n - 1`, leaves connections `0..k-1`
and watch entries `0..k` as they were, moves every later entry down by one position in both
arrays, and stays inside the `n` connection slots and `n + 1` watch slots: slots beyond them keep
their content, and the same call on the arrays cut to those slots completes with the same result. -/
theorem disconnection_shifts_down (t : Server) (n k : Nat) (c : ClientData) (s : TextStatistics)
    (hn : t.max_clients = n) (h1 : 1 ≤ n) (h64 : n < UINT64_SIZE) (hk : k < n)
    (hcs : n ≤ t.client_sockets.length) (hfds : n + 1 ≤ t.fds.length)
    (hc : t.client_sockets[k]? = some c) (hs : c.stats = some s) :
    ∃ t1, handle_client_disconnection t k = .ok t1 ∧ t1.max_clients = n - 1 ∧
      (∀ j, j < k → t1.client_sockets[j]? = t.client_sockets[j]?) ∧
      (∀ j, j ≤ k → t1.fds[j]? = t.fds[j]?) ∧
      (∀ j, k ≤ j → j < n - 1 → t1.client_sockets[j]? = t.client_sockets[j + 1]?) ∧
      (∀ j, k + 1 ≤ j → j ≤ n - 1 → t1.fds[j]? = t.fds[j + 1]?) ∧
      (∀ j, n ≤ j → t1.client_sockets[j]? = t.client_sockets[j]?) ∧
      (∀ j, n + 1 ≤ j → t1.fds[j]? = t.fds[j]?) ∧
      ∃ t2, handle_client_disconnection (cut_to t n) k = .ok t2 ∧
        t2.client_sockets = t1.client_sockets.take n ∧ t2.fds = t1.fds.take (n + 1) ∧
        t2.max_clients = t1.max_clients := by
  subst hn
  obtain ⟨t1, hr1, hmax1, _, _, _, hcs1, hfds1⟩ := disconnection_spec t k c s h64 hk hcs hfds hc hs
  obtain ⟨t2, hr2, hmax2, _, _, _, hcs2, hfds2⟩ := disconnection_spec
    (cut_to t t.max_clients)
    k c s h64 hk (by simp [cut_to]; omega) (by simp [cut_to]; omega)
    (by simp only [cut_to, List.getElem?_take_of_lt hk]; exact hc) hs
  dsimp only [cut_to] at hmax2 hcs2 hfds2
  refine ⟨t1, hr1, hmax1, ?_, ?_, ?_, ?_, ?_, ?_, t2, hr2, ?_, ?_, ?_⟩
  · intro j hj
    rw [hcs1 j, if_neg (by omega), if_neg (by omega)]
  · intro j hj
    rw [hfds1 j, if_neg (by omega)]
  · intro j hj1 hj2
    rw [hcs1 j, if_pos ⟨hj1, hj2⟩]
  · intro j hj1 hj2
    rw [hfds1 j, if_pos (by omega)]
  · intro j hj
    rw [hcs1 j, if_neg (by omega), if_neg (by omega)]
  · intro j hj
    rw [hfds1 j, if_neg (by omega)]
  · apply List.ext_getElem?
    intro j
    rw [hcs2 j]
    simp only [List.getElem?_take, hcs1 j]
    split_ifs <;> first | rfl | (exfalso; omega)
  · apply List.ext_getElem?
    intro j
    rw [hfds2 j]
    simp only [List.getElem?_take, hfds1 j]
    split_ifs <;> first | rfl | (exfalso; omega)
  · rw [hmax1, hmax2]

theorem disconnection_shifts_down_witness :
    ∃ t1, handle_client_disconnection two_clients 0 = .ok t1 ∧ t1.max_clients = 1 ∧
      t1.client_sockets[0]? = two_clients.client_sockets[1]? ∧
      t1.fds[0]? = two_clients.fds[0]? ∧ t1.fds[1]? = two_clients.fds[2]? := by
  obtain ⟨t1, hr, hmax, _, h2, h3, h4, _⟩ := disconnection_shifts_down two_clients 2 0
    ⟨4, some calloc_stats⟩ calloc_stats rfl (by decide) (by decide) (by decide) (by decide)
    (by decide) rfl rfl
  exact ⟨t1, hr, hmax, h3 0 (by decide) (by decide), h2 0 (by decide), h4 1 (by decide) (by decide)⟩

/-! ## Word frames -/

theorem body_read_count_zero (p : Platform) : body_read_count p 0 = 0 := by
  simp [body_read_count, char_of_byte, to_size_t]

theorem sys_read_data (bytes : List Nat) (count : Nat) (h : count ≤ SSIZE_MAX) :
    sys_read (.data bytes) count = ((((bytes.take count).length : Nat) : Int), bytes.take count) := by
  unfold sys_read
  rw [if_neg (by omega)]

theorem sys_read_rejected (r : ReadResult) (count : Nat) (h : SSIZE_MAX < count) :
    sys_read r count = (-1, []) := by
  unfold sys_read
  rw [if_pos h]

theorem sys_read_zero (r : ReadResult) : (sys_read r 0).1 ≤ 0 := by
  cases r <;> simp [sys_read]

theorem sys_read_length_le (r : ReadResult) (count : Nat) : (sys_read r count).2.length ≤ count := by
  unfold sys_read
  split
  · simp
  · cases r <;> simp

theorem body_read_count_unsigned (p : Platform) (b : Nat) (hb : b < 256)
    (h : p.char_signed = false ∨ b < 128) : body_read_count p b = b := by
  have hc : char_of_byte p b = (b : Int) := by
    unfold char_of_byte
    rcases h with h | h
    · simp [h]
    · rw [if_neg (by omega)]
  unfold body_read_count to_size_t UINT64_SIZE
  rw [hc]
  omega

theorem body_read_count_signed (p : Platform) (b : Nat) (hs : p.char_signed = true)
    (h1 : 128 ≤ b) (h2 : b < 256) : body_read_count p b = UINT64_SIZE - 256 + b := by
  have hc : char_of_byte p b = (b : Int) - 256 := by
    unfold char_of_byte
    rw [if_pos ⟨hs, h1⟩]
  unfold body_read_count to_size_t UINT64_SIZE
  rw [hc]
  omega

/-- C5: when the header read of a ready connection returns the byte 0, `handle_client_data` asks
the body read for 0 bytes, gets a return value that is not positive, and runs the disconnection
teardown: the connection's unchanged statistics are sent and printed, its socket is closed and
`max_clients` drops by one.  The specification has the connection stay with one more word counted. -/
theorem zero_length_frame_disconnects (p : Platform) (sockfd : Int) (t : Server) (i : Nat)
    (c : ClientData) (entry : pollfd) (s : TextStatistics) (body : ReadResult)
    (hwf : well_formed sockfd t) (hi : i < t.max_clients)
    (hc : t.client_sockets[i]? = some c) (hfd : c.socket_fd ≠ -1) (hs : c.stats = some s)
    (he : t.fds[i + 1]? = some entry) (hin : entry.revents &&& POLLIN ≠ 0) :
    ∃ t1, handle_client_event p t i ⟨.data [0], body⟩ = .ok t1 ∧
      handle_client_disconnection t i = .ok t1 ∧
      t1.max_clients = t.max_clients - 1 ∧
      t1.log = t.log ++
        [Effect.sent_stats c.socket_fd s, Effect.printed_stats s, Effect.closed c.socket_fd] := by
  obtain ⟨hb1, hb2, hb3⟩ := well_formed_bounds hwf
  obtain ⟨t1, hr, hmax, _, _, hlog, _, _⟩ := disconnection_spec t i c s hb3 hi hb1 hb2 hc hs
  refine ⟨t1, ?_, hr, hmax, hlog⟩
  rw [handle_client_event_ready p t i _ c entry hc hfd he hin]
  have h1 : ¬ (sys_read (ReadResult.data [0]) 1).1 ≤ 0 := by
    rw [sys_read_data _ _ (by decide)]; simp
  have h2 : (sys_read (ReadResult.data [0]) 1).2.headD 0 = 0 := by
    rw [sys_read_data _ _ (by decide)]; simp
  simp only [h2, body_read_count_zero]
  rw [if_neg h1, if_pos (sys_read_zero body), hr]

theorem zero_length_frame_disconnects_witness :
    ∃ t1, handle_client_event x86_64 two_clients 0 ⟨.data [0], .data []⟩ = .ok t1 ∧
      t1.max_clients = 1 ∧
      t1.log = [Effect.sent_stats 4 calloc_stats, Effect.printed_stats calloc_stats, Effect.closed 4] := by
  obtain ⟨t1, h1, _, h3, h4⟩ := zero_length_frame_disconnects x86_64 3 two_clients 0
    ⟨4, some calloc_stats⟩ ⟨4, POLLIN, POLLIN⟩ calloc_stats (.data [])
    (reachable_well_formed (two_clients_reachable x86_64)) (by decide) rfl (by decide) rfl rfl
    (by decide)
  exact ⟨t1, h1, h3, h4⟩

/-- C6: on a platform whose plain `char` is signed, for every word of 128 to 255 bytes without
NUL, the frame `send_word` emits is the length byte followed by the word, and the count
`handle_client_data` passes to the body read for that length byte is `2^64 - 256 + len`, not
`len`. -/
theorem long_word_body_request (p : Platform) (w : List Nat) (hsigned : p.char_signed = true)
    (hlen : 128 ≤ w.length) (hmax : w.length ≤ 255) (hnul : ∀ b ∈ w, b ≠ 0) :
    send_word w (to_uint8 (strlen (w ++ [0]))) = w.length :: w ∧
    body_read_count p ((send_word w (to_uint8 (strlen (w ++ [0])))).headD 0) =
      UINT64_SIZE - 256 + w.length ∧
    body_read_count p ((send_word w (to_uint8 (strlen (w ++ [0])))).headD 0) ≠ w.length := by
  have hframe : send_word w (to_uint8 (strlen (w ++ [0]))) = w.length :: w := by
    rw [strlen_no_nul w hnul]
    have : to_uint8 w.length = w.length := by unfold to_uint8; omega
    rw [this]
    unfold send_word
    rw [if_pos (by omega), List.take_length]
    rfl
  rw [hframe]
  have hcount := body_read_count_signed p w.length hsigned hlen (by omega)
  refine ⟨rfl, ?_, ?_⟩
  · simpa using hcount
  · simp only [List.headD_cons, hcount]
    unfold UINT64_SIZE
    omega

theorem long_word_body_request_witness :
    body_read_count x86_64
      ((send_word (List.replicate 128 97) (to_uint8 (strlen (List.replicate 128 97 ++ [0])))).headD 0) =
        UINT64_SIZE - 256 + (List.replicate 128 97).length ∧
    UINT64_SIZE - 256 + (List.replicate 128 97).length = 18446744073709551488 :=
  ⟨(long_word_body_request x86_64 (List.replicate 128 97) rfl (by simp) (by simp)
    (by intro b hb; rw [List.eq_of_mem_replicate hb]; decide)).2.1, by simp [UINT64_SIZE]⟩

/-! ## Isolation of a failing connection -/

theorem connections_after_disconnection (t t1 : Server) (k : Nat) (c : ClientData)
    (hk : k < t.max_clients) (hmax : t1.max_clients = t.max_clients - 1)
    (hcs : ∀ j, t1.client_sockets[j]? =
        if k ≤ j ∧ j < t.max_clients - 1 then t.client_sockets[j + 1]?
        else if j = k then some { c with stats := none } else t.client_sockets[j]?) :
    connections t1 = (connections t).eraseIdx k := by
  apply List.ext_getElem?
  intro j
  unfold connections
  rw [List.getElem?_eraseIdx]
  simp only [List.getElem?_take, hcs j, hmax]
  split_ifs <;> first | rfl | (exfalso; omega)

/-- C7: when a ready connection `i` of a well-formed table is handled and the header read or the
body read returns 0 or an error, the handler completes (no exit, no fault), connection `i` is
torn down (statistics sent and printed, socket closed) and removed, and the connections in use
afterwards are exactly the others, in order, with their descriptors and statistics unchanged.
When a word that fits the buffer is received, only the statistics of connection `i` change. -/
theorem partial_failure_isolation (p : Platform) (sockfd : Int) (t : Server) (i : Nat)
    (c : ClientData) (entry : pollfd) (inp : ClientInput)
    (hwf : well_formed sockfd t) (hi : i < t.max_clients)
    (hc : t.client_sockets[i]? = some c) (hfd : c.socket_fd ≠ -1)
    (he : t.fds[i + 1]? = some entry) (hin : entry.revents &&& POLLIN ≠ 0) :
    (((sys_read inp.header 1).1 ≤ 0 ∨
        (sys_read inp.body (body_read_count p ((sys_read inp.header 1).2.headD 0))).1 ≤ 0) →
      ∃ t1 s, handle_client_event p t i inp = .ok t1 ∧
        t1.max_clients = t.max_clients - 1 ∧
        connections t1 = (connections t).eraseIdx i ∧
        c.stats = some s ∧
        t1.log = t.log ++
          [Effect.sent_stats c.socket_fd s, Effect.printed_stats s, Effect.closed c.socket_fd]) ∧
    ((0 < (sys_read inp.header 1).1 ∧
        0 < (sys_read inp.body (body_read_count p ((sys_read inp.header 1).2.headD 0))).1 ∧
        (sys_read inp.body (body_read_count p ((sys_read inp.header 1).2.headD 0))).2.length < MAX_WORD_LEN) →
      ∃ t1 s, handle_client_event p t i inp = .ok t1 ∧
        c.stats = some s ∧
        t1.max_clients = t.max_clients ∧ t1.fds = t.fds ∧
        t1.client_sockets[i]? = some ⟨c.socket_fd, some (record_word p s
          (sys_read inp.body (body_read_count p ((sys_read inp.header 1).2.headD 0))).2)⟩ ∧
        ∀ j, j ≠ i → t1.client_sockets[j]? = t.client_sockets[j]?) := by
  obtain ⟨hb1, hb2, hb3⟩ := well_formed_bounds hwf
  obtain ⟨s, hs⟩ := Option.ne_none_iff_exists'.mp (hwf.owns i hi c hc)
  have hev := handle_client_event_ready p t i inp c entry hc hfd he hin
  constructor
  · intro hfail
    obtain ⟨t1, hr, hmax, _, _, hlog, hcs, _⟩ := disconnection_spec t i c s hb3 hi hb1 hb2 hc hs
    refine ⟨t1, s, ?_, hmax, connections_after_disconnection t t1 i c hi hmax hcs, hs, hlog⟩
    rw [hev]
    by_cases h1 : (sys_read inp.header 1).1 ≤ 0
    · rw [if_pos h1, hr]
    · rw [if_neg h1]
      rcases hfail with h2 | h2
      · exact absurd h2 h1
      · rw [if_pos h2, hr]
  · rintro ⟨h1, h2, h3⟩
    have hlt : i < t.client_sockets.length := (List.getElem?_eq_some.mp hc).1
    have hrun : handle_client_event p t i inp = .ok { t with
        client_sockets := t.client_sockets.set i { c with stats := some (record_word p s
          (sys_read inp.body (body_read_count p ((sys_read inp.header 1).2.headD 0))).2) }
        log := t.log ++ [Effect.received_word c.socket_fd
          ((sys_read inp.body (body_read_count p ((sys_read inp.header 1).2.headD 0))).2.take
            (strlen ((sys_read inp.body (body_read_count p ((sys_read inp.header 1).2.headD 0))).2 ++ [0])))] } := by
      rw [hev, if_neg (by omega), if_neg (by omega), if_neg (by omega), hs]
    refine ⟨_, s, hrun, hs, rfl, rfl, ?_, ?_⟩
    · simp only [List.getElem?_set_self hlt]
    · intro j hj
      simp only
      rw [List.getElem?_set_ne (by omega)]

theorem partial_failure_isolation_witness :
    (∃ t1, handle_client_event x86_64 two_clients 0 ⟨.data [], .error⟩ = .ok t1 ∧
      connections t1 = [⟨5, some calloc_stats⟩]) ∧
    (∃ t1, handle_client_event x86_64 two_clients 0 ⟨.data [2], .data [72, 105]⟩ = .ok t1 ∧
      t1.client_sockets[1]? = some ⟨5, some calloc_stats⟩) := by
  have h := partial_failure_isolation x86_64 3 two_clients 0 ⟨4, some calloc_stats⟩
    ⟨4, POLLIN, POLLIN⟩
  constructor
  · obtain ⟨t1, _, hr, _, hconn, _, _⟩ := (h ⟨.data [], .error⟩
      (reachable_well_formed (two_clients_reachable x86_64)) (by decide) rfl (by decide) rfl
      (by decide)).1 (Or.inl (by decide))
    exact ⟨t1, hr, hconn⟩
  · obtain ⟨t1, _, hr, _, _, _, _, hothers⟩ := (h ⟨.data [2], .data [72, 105]⟩
      (reachable_well_formed (two_clients_reachable x86_64)) (by decide) rfl (by decide) rfl
      (by decide)).2 ⟨by decide, by decide, by decide⟩
    exact ⟨t1, hr, hothers 1 (by decide)⟩

theorem body_fits_buffer (p : Platform) (inp : ClientInput) (b : Nat) (hb : b < 256)
    (h : p.char_signed = false ∨ b < 128) :
    (sys_read inp.body (body_read_count p b)).2.length < MAX_WORD_LEN := by
  have h1 := sys_read_length_le inp.body (body_read_count p b)
  have h2 := body_read_count_unsigned p b hb h
  unfold MAX_WORD_LEN
  omega

/-! ## Shutdown, statistics decoding and the client send loop -/

/-- C8: when `SIGINT` arrives while the server is blocked in `poll`, the handler sets `exit_flag`
and `poll` returns -1; the loop of `main` then takes the branch `activity < 0` and the process
exits with `EXIT_FAILURE`, whatever the table and whatever would follow.  The specification has the loop
leave through the cleanup with status 0. -/
theorem sigint_during_poll_exits_with_failure (p : Platform) (close_ok : Int → Bool) (sockfd : Int)
    (accept : AcceptEnv) (clients : Int → ClientInput) (later : Bool) (rest : List Iteration)
    (t : Server) :
    poll_sets_exit_flag PollResult.interrupted = true ∧
    poll_return PollResult.interrupted = -1 ∧
    main_loop p close_ok sockfd (⟨.interrupted, accept, clients, later⟩ :: rest) false t =
      .exited EXIT_FAILURE := by
  refine ⟨rfl, rfl, ?_⟩
  simp [main_loop, poll_return]

theorem shutdown_at_loop_condition (p : Platform) (close_ok : Int → Bool) (sockfd : Int)
    (rest : List Iteration) (t : Server) (h1 : t.max_clients ≤ t.client_sockets.length)
    (h2 : ∀ fd, close_ok fd = true) :
    main_loop p close_ok sockfd rest true t = .exited EXIT_SUCCESS := by
  have hc : ∀ cs : List ClientData, close_clients close_ok cs = true := by
    intro cs
    induction cs with
    | nil => rfl
    | cons c cs ih => simp [close_clients, h2, ih]
  cases rest <;> simp [main_loop, terminal_cleanup, hc, h2] <;> omega

theorem read_fully_whole_chunk (count : Nat) (bytes : List Nat) (rest : List ReadOutcome)
    (h0 : bytes ≠ []) (h : bytes.length = count) :
    read_fully count (.data bytes :: rest) = some ⟨(count : Nat), bytes, rest⟩ := by
  subst h
  cases bytes with
  | nil => exact absurd rfl h0
  | cons b bs =>
    unfold read_fully read_fully_from
    simp
    unfold read_fully_from
    simp

theorem read_fully_short_chunk (count : Nat) (bytes : List Nat) (rest : List ReadOutcome)
    (h1 : bytes ≠ []) (h2 : bytes.length < count) :
    read_fully count (.data bytes :: .data [] :: rest) =
      some ⟨(bytes.length : Nat), bytes, .data [] :: rest⟩ := by
  unfold read_fully read_fully_from
  simp [h1]
  rw [if_pos (by omega), if_pos (by omega)]
  unfold read_fully_from
  simp [h2]

theorem size_t_round_trip (p : Platform) :
    size_t_value p (size_t_bytes p SIZEOF_TextStatistics) = SIZEOF_TextStatistics ∧
    (size_t_bytes p SIZEOF_TextStatistics).length = 8 := by
  obtain ⟨cs, le⟩ := p
  cases cs <;> cases le <;> decide

/-- C9: when the length prefix declares `sizeof(TextStatistics)` bytes and the stream closes after
a non-empty, shorter payload, `read_stats` calls `handleError` not once, prints `Bytes read` with
the short count and prints statistics from the partly filled buffer; the client then exits with
`EXIT_SUCCESS`.  The specification has `read_stats` report a failure and the client exit with an error. -/
theorem short_stats_blob_is_printed (p : Platform) (sockfd : Int) (fill : Nat) (payload : List Nat)
    (h1 : payload ≠ []) (h2 : payload.length < SIZEOF_TextStatistics) :
    read_stats p sockfd fill
        [.data (size_t_bytes p SIZEOF_TextStatistics), .data payload, .data []] =
      .printed (payload.length : Nat)
        (payload ++ List.replicate (SIZEOF_TextStatistics - payload.length) 0) [] ∧
    client_finish p sockfd fill true
        [.data (size_t_bytes p SIZEOF_TextStatistics), .data payload, .data []] =
      .exited EXIT_SUCCESS := by
  obtain ⟨hv, hl⟩ := size_t_round_trip p
  have hr : read_stats p sockfd fill
        [.data (size_t_bytes p SIZEOF_TextStatistics), .data payload, .data []] =
      .printed (payload.length : Nat)
        (payload ++ List.replicate (SIZEOF_TextStatistics - payload.length) 0) [] := by
    unfold read_stats
    have hne : size_t_bytes p SIZEOF_TextStatistics ≠ [] := by
      intro h; rw [h] at hl; simp at hl
    have hd : List.drop 8 (size_t_bytes p SIZEOF_TextStatistics) = [] :=
      List.drop_eq_nil_of_le (by omega)
    rw [read_fully_whole_chunk 8 _ _ hne hl]
    simp only [hl, hd, List.append_nil, hv]
    rw [read_fully_short_chunk _ _ _ h1 h2]
    have hpos : 0 < payload.length := List.length_pos.mpr h1
    simp [realloc, hpos]
    exact h1
  refine ⟨hr, ?_⟩
  unfold client_finish
  rw [hr]
  rfl

theorem short_stats_blob_is_printed_witness :
    read_stats x86_64 3 0 [.data (size_t_bytes x86_64 SIZEOF_TextStatistics), .data [1], .data []] =
      .printed 1 ([1] ++ List.replicate (SIZEOF_TextStatistics - 1) 0) [] :=
  (short_stats_blob_is_printed x86_64 3 0 [1] (by decide) (by decide)).1


set_option maxRecDepth 1000000 in
/-- C10: for the file `long_word_file`, whose single line holds a 400-byte word starting at
offset 804, the send loop terminates without calling `exit`: the first `fgets` chunk of 1023 bytes
ends 219 bytes into the word, and the loop sends the four 200-byte words, then a frame with the
first 219 bytes of the long word, then a frame with its last 181 bytes.  The specification has the client
report a fatal error and send no fragment of the word. -/
theorem long_word_is_sent_in_fragments :
    client_send long_word_file =
      some ⟨[200 :: List.replicate 200 97, 200 :: List.replicate 200 97,
             200 :: List.replicate 200 97, 200 :: List.replicate 200 97,
             219 :: List.replicate 219 98, 181 :: List.replicate 181 98], none⟩ := by
  decide

/-! ## A received word reaches the accumulator -/

theorem handle_client_event_stores_word (p : Platform) (t : Server) (i : Nat)
    (c : ClientData) (entry : pollfd) (s : TextStatistics) (b : Nat) (w : List Nat)
    (hc : t.client_sockets[i]? = some c) (hfd : c.socket_fd ≠ -1) (hs : c.stats = some s)
    (he : t.fds[i + 1]? = some entry) (hin : entry.revents &&& POLLIN ≠ 0)
    (hw1 : w ≠ []) (hw2 : w.length ≤ body_read_count p b) (hw3 : w.length < MAX_WORD_LEN)
    (hw4 : body_read_count p b ≤ SSIZE_MAX) :
    ∃ t1, handle_client_event p t i ⟨.data [b], .data w⟩ = .ok t1 ∧
      stats_at t1 i = some (record_word p s w) ∧
      ∀ j, j ≠ i → stats_at t1 j = stats_at t j := by
  have hpos : 0 < w.length := List.length_pos.mpr hw1
  have hbody : sys_read (ReadResult.data w) (body_read_count p b) = (((w.length : Nat) : Int), w) := by
    rw [sys_read_data _ _ hw4, List.take_of_length_le hw2]
  have hheader : sys_read (ReadResult.data [b]) 1 = (1, [b]) := by
    rw [sys_read_data _ _ (by decide)]; rfl
  have hlt : i < t.client_sockets.length := (List.getElem?_eq_some.mp hc).1
  have hrun : handle_client_event p t i ⟨.data [b], .data w⟩ = .ok { t with
      client_sockets := t.client_sockets.set i { c with stats := some (record_word p s w) }
      log := t.log ++ [Effect.received_word c.socket_fd (w.take (strlen (w ++ [0])))] } := by
    rw [handle_client_event_ready p t i _ c entry hc hfd he hin]
    simp only [hheader, List.headD_cons, hbody]
    rw [if_neg (by decide), if_neg (by omega), if_neg (by omega), hs]
  refine ⟨_, hrun, ?_, ?_⟩
  · simp [stats_at, List.getElem?_set_self hlt]
  · intro j hj
    simp only [stats_at]
    rw [List.getElem?_set_ne (by omega)]

/-! ## Counters the update never reaches, and short words -/

theorem frequencyArray_increment_upper (p : Platform) (freq : Fin 256 → Nat) (j b : Fin 256)
    (hb : 128 ≤ b.val) : frequencyArray_increment p freq j b = freq b := by
  unfold frequencyArray_increment
  apply Function.update_noteq
  intro h
  have := congrArg Fin.val h
  simp at this
  omega

theorem update_character_frequency_upper (p : Platform) (b : Fin 256) (hb : 128 ≤ b.val) :
    ∀ (word : List Nat) (n : Nat) (freq : Fin 256 → Nat),
      update_character_frequency p word n freq b = freq b := by
  intro word
  induction word with
  | nil => intro n freq; rfl
  | cons c cs ih =>
    intro n freq
    cases n with
    | zero => rfl
    | succ n =>
      unfold update_character_frequency
      split
      · rfl
      · rw [ih, frequencyArray_increment_upper p freq _ b hb]

theorem record_word_upper (p : Platform) (s : TextStatistics) (body : List Nat) (b : Fin 256)
    (hb : 128 ≤ b.val) :
    (record_word p s body).character_frequency b = s.character_frequency b :=
  update_character_frequency_upper p b hb _ _ _

theorem word_round_trip_short (p : Platform) (t : Server) (i : Nat)
    (c : ClientData) (entry : pollfd) (s : TextStatistics) (w : List Nat)
    (hc : t.client_sockets[i]? = some c) (hfd : c.socket_fd ≠ -1) (hs : c.stats = some s)
    (he : t.fds[i + 1]? = some entry) (hin : entry.revents &&& POLLIN ≠ 0)
    (hw1 : w ≠ []) (hw2 : w.length ≤ 255) (hnul : ∀ b ∈ w, b ≠ 0)
    (hchar : p.char_signed = false ∨ w.length < 128) :
    send_word w (to_uint8 (strlen (w ++ [0]))) = w.length :: w ∧
    body_read_count p w.length = w.length ∧
    ∃ t1, handle_client_event p t i ⟨.data [w.length], .data w⟩ = .ok t1 ∧
      stats_at t1 i = some (record_word p s w) := by
  have hcount := body_read_count_unsigned p w.length (by omega) hchar
  have hframe : send_word w (to_uint8 (strlen (w ++ [0]))) = w.length :: w := by
    rw [strlen_no_nul w hnul]
    have : to_uint8 w.length = w.length := by unfold to_uint8; omega
    have hpos : 0 < w.length := List.length_pos.mpr hw1
    rw [this]
    unfold send_word
    rw [if_pos hpos, List.take_length]
    rfl
  obtain ⟨t1, hr, hst, _⟩ := handle_client_event_stores_word p t i c entry s w.length w hc hfd hs
    he hin hw1 (by omega) (by unfold MAX_WORD_LEN; omega) (by rw [hcount]; unfold SSIZE_MAX; omega)
  exact ⟨hframe, hcount, t1, hr, hst⟩

/-! ## Case folding -/

theorem lowered_index_lowercase (p : Platform) (c : Nat) :
    to_unsigned_char (tolower (char_of_byte p (if 65 ≤ c ∧ c ≤ 90 then c + 32 else c))) =
      to_unsigned_char (tolower (char_of_byte p c)) := by
  by_cases h : 65 ≤ c ∧ c ≤ 90
  · rw [if_pos h]
    have h1 : char_of_byte p c = (c : Int) := by
      unfold char_of_byte; rw [if_neg (by omega)]
    have h2 : char_of_byte p (c + 32) = ((c + 32 : Nat) : Int) := by
      unfold char_of_byte; rw [if_neg (by omega)]
    rw [h1, h2]
    unfold tolower
    rw [if_neg (by omega), if_pos (by omega)]
    congr 1
  · rw [if_neg h]

theorem update_character_frequency_lowercase (p : Platform) :
    ∀ (w : List Nat) (n : Nat) (freq : Fin 256 → Nat),
      update_character_frequency p (lowercase w) n freq = update_character_frequency p w n freq := by
  intro w
  induction w with
  | nil => intro n freq; rfl
  | cons c cs ih =>
    intro n freq
    cases n with
    | zero => rfl
    | succ n =>
      have hz : (if 65 ≤ c ∧ c ≤ 90 then c + 32 else c) = 0 ↔ c = 0 := by
        split <;> omega
      simp only [lowercase, List.map_cons] at ih ⊢
      unfold update_character_frequency
      by_cases hc : c = 0
      · rw [if_pos (hz.mpr hc), if_pos hc]
      · rw [if_neg (fun h => hc (hz.mp h)), if_neg hc]
        simp only [lowered_index_lowercase]
        exact ih n _

theorem strlen_lowercase (w tail : List Nat) :
    strlen (lowercase w ++ tail) = strlen (w ++ tail) := by
  induction w with
  | nil => rfl
  | cons c cs ih =>
    have hz : (if 65 ≤ c ∧ c ≤ 90 then c + 32 else c) = 0 ↔ c = 0 := by
      split <;> omega
    simp only [lowercase, List.map_cons, List.cons_append] at ih ⊢
    unfold strlen
    by_cases hc : c = 0
    · rw [if_pos (hz.mpr hc), if_pos hc]
    · rw [if_neg (fun h => hc (hz.mp h)), if_neg hc, ih]

/-- C11: for every platform, word and accumulator, the `character_frequency` table after
`update_character_frequency` on the lowercase version of the word (with any `word_size`) is the
table after the update on the word itself, and so is the table `handle_client_data` leaves after
receiving either; `AbC` lowers to `abc`. -/
theorem case_folding (p : Platform) (w : List Nat) (n : Nat) (s : TextStatistics) :
    update_character_frequency p (lowercase w) n s.character_frequency =
      update_character_frequency p w n s.character_frequency ∧
    (record_word p s (lowercase w)).character_frequency = (record_word p s w).character_frequency ∧
    lowercase (ascii "AbC") = ascii "abc" := by
  refine ⟨update_character_frequency_lowercase p w n _, ?_, by decide⟩
  simp only [record_word, strlen_lowercase]
  have h : lowercase w ++ [0] = lowercase (w ++ [0]) := by simp [lowercase]
  rw [h]
  exact update_character_frequency_lowercase p _ _ _

/-! ## The contract of read_fully -/

theorem read_fully_from_done (count : Nat) (stream : List ReadOutcome) (stored : List Nat)
    (h : ¬ stored.length < count) :
    read_fully_from count stream stored = some ⟨(stored.length : Nat), stored, stream⟩ := by
  unfold read_fully_from
  rw [if_neg h]

theorem read_fully_from_enough (count : Nat) :
    ∀ (stream : List ReadOutcome) (stored : List Nat), stored.length ≤ count →
      count ≤ stored.length + (supplied stream).length →
      ∃ rest, read_fully_from count stream stored =
        some ⟨(count : Nat), stored ++ (supplied stream).take (count - stored.length), rest⟩ := by
  intro stream
  induction stream with
  | nil =>
    intro stored h1 h2
    simp only [supplied, List.length_nil, Nat.add_zero] at h2
    have : stored.length = count := by omega
    refine ⟨[], ?_⟩
    rw [read_fully_from_done _ _ _ (by omega), this]
    simp [supplied]
  | cons o rest ih =>
    intro stored h1 h2
    by_cases hlt : stored.length < count
    · cases o with
      | eintr =>
        simp only [supplied] at h2 ⊢
        obtain ⟨r, hr⟩ := ih stored h1 h2
        refine ⟨r, ?_⟩
        unfold read_fully_from
        rw [if_pos hlt]
        exact hr
      | error =>
        simp only [supplied, List.length_nil] at h2
        omega
      | data bytes =>
        by_cases hb : bytes = []
        · simp only [supplied, hb, if_true, List.length_nil] at h2
          omega
        · simp only [supplied, if_neg hb, List.length_append] at h2 ⊢
          by_cases hfit : bytes.length ≤ count - stored.length
          · obtain ⟨r, hr⟩ := ih (stored ++ bytes) (by simp; omega) (by simp; omega)
            refine ⟨r, ?_⟩
            unfold read_fully_from
            rw [if_pos hlt]
            simp only [if_neg hb, if_pos hfit]
            rw [hr]
            have e : (bytes ++ supplied rest).take (count - stored.length) =
                bytes ++ (supplied rest).take (count - (stored ++ bytes).length) := by
              rw [List.take_append_eq_append_take, List.take_of_length_le hfit,
                List.length_append, Nat.sub_add_eq]
            rw [e, List.append_assoc]
          · refine ⟨.data (bytes.drop (count - stored.length)) :: rest, ?_⟩
            unfold read_fully_from
            rw [if_pos hlt]
            simp only [if_neg hb, if_neg hfit]
            have hlen : (stored ++ bytes.take (count - stored.length)).length = count := by
              simp; omega
            rw [hlen]
            simp only [List.take_append_eq_append_take]
            have : count - stored.length - bytes.length = 0 := by omega
            rw [this, List.take_zero, List.append_nil]
    · have : stored.length = count := by omega
      refine ⟨o :: rest, ?_⟩
      rw [read_fully_from_done _ _ _ hlt, this]
      simp

theorem read_fully_from_short (count : Nat) :
    ∀ (stream : List ReadOutcome) (stored : List Nat),
      stored.length + (supplied stream).length < count →
      (stream_end stream = .io_error →
        ∃ rest, read_fully_from count stream stored = some ⟨-1, stored ++ supplied stream, rest⟩) ∧
      (stream_end stream = .end_of_stream →
        ∃ rest, read_fully_from count stream stored =
          some ⟨((stored ++ supplied stream).length : Nat), stored ++ supplied stream, rest⟩) ∧
      (stream_end stream = .still_open → read_fully_from count stream stored = none) := by
  intro stream
  induction stream with
  | nil =>
    intro stored h
    simp only [supplied, List.length_nil, Nat.add_zero] at h
    refine ⟨by simp [stream_end], by simp [stream_end], ?_⟩
    intro _
    unfold read_fully_from
    rw [if_pos h]
  | cons o rest ih =>
    intro stored h
    have hlt : stored.length < count := by omega
    cases o with
    | eintr =>
      simp only [supplied, stream_end] at h ⊢
      have := ih stored h
      unfold read_fully_from
      rw [if_pos hlt]
      exact this
    | error =>
      simp only [supplied, stream_end, List.append_nil]
      refine ⟨fun _ => ⟨rest, ?_⟩, by simp, by simp⟩
      unfold read_fully_from
      rw [if_pos hlt]
    | data bytes =>
      by_cases hb : bytes = []
      · subst hb
        simp only [supplied, stream_end, if_true, List.append_nil]
        refine ⟨by simp, fun _ => ⟨.data [] :: rest, ?_⟩, by simp⟩
        unfold read_fully_from
        rw [if_pos hlt]
        simp
      · simp only [supplied, if_neg hb, List.length_append] at h
        simp only [supplied, stream_end, if_neg hb]
        have hfit : bytes.length ≤ count - stored.length := by omega
        have := ih (stored ++ bytes) (by simp; omega)
        unfold read_fully_from
        rw [if_pos hlt]
        simp only [if_neg hb, if_pos hfit, ← List.append_assoc]
        exact this

/-- C12 (as amended): for every count and every finite sequence of read outcomes, `read_fully`
returns `count`, with the first `count` supplied bytes stored in order, whenever the stream
supplies at least `count` bytes before any error or end of stream, interruptions being retried;
when fewer bytes are supplied it returns -1 if a genuine error ends them, and it returns the
number of bytes received, all stored in order, if the end of the stream ends them; it returns -1
in no other case. -/
theorem read_fully_contract (count : Nat) (stream : List ReadOutcome) :
    (count ≤ (supplied stream).length →
      ∃ rest, read_fully count stream = some ⟨(count : Nat), (supplied stream).take count, rest⟩) ∧
    ((supplied stream).length < count → stream_end stream = .io_error →
      ∃ rest, read_fully count stream = some ⟨-1, supplied stream, rest⟩) ∧
    ((supplied stream).length < count → stream_end stream = .end_of_stream →
      ∃ rest, read_fully count stream =
        some ⟨((supplied stream).length : Nat), supplied stream, rest⟩) ∧
    (∀ r, read_fully count stream = some r → r.ret = -1 →
      (supplied stream).length < count ∧ stream_end stream = .io_error) := by
  have hshort := read_fully_from_short count stream []
  simp only [List.length_nil, Nat.zero_add, List.nil_append] at hshort
  have henough := read_fully_from_enough count stream [] (by simp)
  simp only [List.length_nil, Nat.zero_add, List.nil_append, Nat.sub_zero] at henough
  refine ⟨henough, fun h => (hshort h).1, fun h => (hshort h).2.1, ?_⟩
  intro r hr hret
  by_cases h : count ≤ (supplied stream).length
  · obtain ⟨rest, h1⟩ := henough h
    unfold read_fully at hr
    rw [h1] at hr
    cases hr
    simp at hret
  · have hlt : (supplied stream).length < count := by omega
    refine ⟨hlt, ?_⟩
    cases he : stream_end stream with
    | io_error => rfl
    | end_of_stream =>
      obtain ⟨rest, h1⟩ := (hshort hlt).2.1 he
      unfold read_fully at hr
      rw [h1] at hr
      cases hr
      simp at hret
    | still_open =>
      have h1 := (hshort hlt).2.2 he
      unfold read_fully at hr
      rw [h1] at hr
      cases hr

theorem read_fully_contract_witness :
    4 ≤ (supplied [.data [1, 2], .eintr, .data [3, 4, 5], .data []]).length ∧
    ∃ rest, read_fully 4 [.data [1, 2], .eintr, .data [3, 4, 5], .data []] =
      some ⟨(4 : Nat), (supplied [.data [1, 2], .eintr, .data [3, 4, 5], .data []]).take 4, rest⟩ :=
  ⟨by decide, (read_fully_contract 4 [.data [1, 2], .eintr, .data [3, 4, 5], .data []]).1 (by decide)⟩

/-- At end of stream after 2 of the 4 requested bytes, `read_fully` returns 2, which is not the
value -1 by which it indicates an error. -/
theorem read_fully_short_count_at_end_of_stream :
    stream_end [.data [1, 2], .data []] = .end_of_stream ∧
    (supplied [.data [1, 2], .data []]).length < 4 ∧
    read_fully 4 [.data [1, 2], .data []] = some ⟨2, [1, 2], [.data []]⟩ ∧
    ¬ ((2 : Int) = -1) := by
  decide

/-! ## Reset of the accumulator and the size of the body read -/

theorem body_read_count_small_or_rejected (p : Platform) (b : Nat) (hb : b < 256) :
    body_read_count p b ≤ 255 ∨ SSIZE_MAX < body_read_count p b := by
  by_cases h : p.char_signed = false ∨ b < 128
  · left
    rw [body_read_count_unsigned p b hb h]
    omega
  · right
    have hs : p.char_signed = true := by
      cases hc : p.char_signed
      · exact absurd (Or.inl hc) h
      · rfl
    rw [body_read_count_signed p b hs (by omega) hb]
    unfold UINT64_SIZE SSIZE_MAX
    omega

theorem body_stored_fits (p : Platform) (r : ReadResult) (b : Nat) (hb : b < 256) :
    (sys_read r (body_read_count p b)).2.length ≤ 255 := by
  rcases body_read_count_small_or_rejected p b hb with h | h
  · have := sys_read_length_le r (body_read_count p b)
    omega
  · rw [sys_read_rejected r _ h]
    simp

/-- C15: on a platform whose plain `char` is signed, for every header byte from 128 to 255 the
count `handle_client_data` passes to the body read is `2^64 - 256 + b`, above the 256 bytes of
`word` and above `SSIZE_MAX`; every such read returns -1 and stores nothing, and the handler
takes the branch `valread <= 0` and tears the connection down.  The specification has the count
at most 255. -/
theorem body_request_exceeds_buffer (p : Platform) (b : Nat) (r : ReadResult)
    (hsigned : p.char_signed = true) (h1 : 128 ≤ b) (h2 : b < 256) :
    body_read_count p b = UINT64_SIZE - 256 + b ∧
    MAX_WORD_LEN < body_read_count p b ∧
    SSIZE_MAX < body_read_count p b ∧
    sys_read r (body_read_count p b) = (-1, []) ∧
    handle_client_event p two_clients 0 ⟨.data [b], r⟩ = handle_client_disconnection two_clients 0 := by
  have hcount := body_read_count_signed p b hsigned h1 h2
  have hbig : SSIZE_MAX < body_read_count p b := by
    rw [hcount]; unfold UINT64_SIZE SSIZE_MAX; omega
  have hrej := sys_read_rejected r _ hbig
  have hheader : sys_read (ReadResult.data [b]) 1 = (1, [b]) := by
    rw [sys_read_data _ _ (by decide)]; rfl
  refine ⟨hcount, ?_, hbig, hrej, ?_⟩
  · rw [hcount]; unfold UINT64_SIZE MAX_WORD_LEN; omega
  · rw [handle_client_event_ready p two_clients 0 _ ⟨4, some calloc_stats⟩ ⟨4, POLLIN, POLLIN⟩
      rfl (by decide) rfl (by decide)]
    simp only [hheader, List.headD_cons, hrej]
    rw [if_neg (by decide), if_pos (by decide)]

theorem body_request_exceeds_buffer_witness :
    body_read_count x86_64 200 = UINT64_SIZE - 256 + 200 ∧
    UINT64_SIZE - 256 + 200 = 18446744073709551560 ∧
    sys_read (.data (List.replicate 300 97)) (body_read_count x86_64 200) = (-1, []) :=
  ⟨(body_request_exceeds_buffer x86_64 200 (.data (List.replicate 300 97)) rfl (by decide)
    (by decide)).1, by decide,
   (body_request_exceeds_buffer x86_64 200 (.data (List.replicate 300 97)) rfl (by decide)
    (by decide)).2.2.2.1⟩

/-! ## One pass over the table, and the iteration of an accept -/

/-- C14: in one pass of `handle_client_data` over a table whose two connections, 4 and 5, are
both reported ready, when connection 4 turns out to be at end of stream it is torn down and
connection 5 moves to index 0 while the loop index moves to 1: the pass ends without any read on
connection 5, whatever it has pending; its statistics are untouched and its watch entry still
reports `POLLIN`.  The specification has no ready connection skipped. -/
theorem ready_connection_skipped_after_disconnection (p : Platform) (inp : ClientInput) :
    ∃ t1, handle_client_data p (closing_4 inp) two_clients = .ok t1 ∧
      connections t1 = [⟨5, some calloc_stats⟩] ∧
      t1.fds[1]? = some ⟨5, POLLIN, POLLIN⟩ ∧
      t1.log = [Effect.sent_stats 4 calloc_stats, Effect.printed_stats calloc_stats, Effect.closed 4] := by
  refine ⟨_, rfl, rfl, rfl, rfl⟩

/-- C16: from `initialize_pollfds`, let connection 4 be accepted, be reported ready and found at
end of stream in the next iteration, and let connection 5 be accepted in the third.  The watch
entry the second accept reuses still holds the `revents` that `poll` wrote for connection 4, so
after `handle_new_connection` the entry of connection 5 reports `POLLIN`, and the
`handle_client_data` pass of that same iteration reads the header and the word `Hi` from
connection 5.  The specification has the new entry report no readiness in that pass. -/
theorem accepted_connection_read_in_same_iteration :
    ∃ t1 t2 accepted t3 s,
      loop_body x86_64 (initialize_pollfds 3 0) (ready_only 0) (accept_of 4) (fun _ => hi_frame) = .ok t1 ∧
      loop_body x86_64 t1 (ready_only 1) (accept_of 4) (fun _ => at_end_of_stream) = .ok t2 ∧
      t2.max_clients = 0 ∧
      handle_new_connection (poll_ready t2 (ready_only 0)) (accept_of 5) = .ok accepted ∧
      accepted.fds[1]? = some ⟨5, POLLIN, POLLIN⟩ ∧
      loop_body x86_64 t2 (ready_only 0) (accept_of 5) (fun _ => hi_frame) = .ok t3 ∧
      stats_at t3 0 = some s ∧ s.word_count = 1 ∧ s.character_count = 2 ∧
      t3.log.getLast? = some (Effect.received_word 5 [72, 105]) := by
  refine ⟨_, _, _, _, _, rfl, rfl, rfl, rfl, rfl, rfl, rfl, rfl, rfl, rfl⟩

/-! ## Client pacing -/

/-- C17: for every value `r` returned by `rand()`, the delay `send_word` builds has `tv_sec = 0`
and a `tv_nsec` of at least 500 ms and below 1500 ms in nanoseconds, and `nanosleep` accepts it
exactly when `r % 1000000000` is below 500000000.  For `r = 1804289383` the request has
`tv_nsec = 1304289383` and is rejected.  The specification has the request well-formed for every
value of `rand()`. -/
theorem pacing_delay_overflows_nanoseconds (r : Nat) :
    (send_word_delay r).tv_sec = 0 ∧
    500000000 ≤ (send_word_delay r).tv_nsec ∧ (send_word_delay r).tv_nsec < 1500000000 ∧
    (nanosleep_accepts (send_word_delay r) = true ↔ r % MAX_ADDITIONAL_NANOSECONDS < 500000000) ∧
    1804289383 ≤ RAND_MAX ∧
    (send_word_delay 1804289383).tv_nsec = 1304289383 ∧
    nanosleep_accepts (send_word_delay 1804289383) = false := by
  have hmod : r % MAX_ADDITIONAL_NANOSECONDS < MAX_ADDITIONAL_NANOSECONDS :=
    Nat.mod_lt _ (by decide)
  unfold MAX_ADDITIONAL_NANOSECONDS at hmod
  refine ⟨rfl, ?_, ?_, ?_, by decide, by decide, by decide⟩
  · simp only [send_word_delay, MIN_DELAY_MILLISECONDS, MILLISECONDS_IN_NANOSECONDS,
      MAX_ADDITIONAL_NANOSECONDS]
    omega
  · simp only [send_word_delay, MIN_DELAY_MILLISECONDS, MILLISECONDS_IN_NANOSECONDS,
      MAX_ADDITIONAL_NANOSECONDS]
    omega
  · simp only [nanosleep_accepts, send_word_delay, MIN_DELAY_MILLISECONDS,
      MILLISECONDS_IN_NANOSECONDS, MAX_ADDITIONAL_NANOSECONDS, decide_eq_true_eq]
    constructor
    · intro h; omega
    · intro h; omega

/-! ## The loop body of main -/

theorem main_loop_iteration (p : Platform) (close_ok : Int → Bool) (sockfd : Int)
    (activity : Nat) (revents : Nat → Nat) (accept : AcceptEnv) (clients : Int → ClientInput)
    (later : Bool) (rest : List Iteration) (t : Server) :
    main_loop p close_ok sockfd (⟨.ready activity revents, accept, clients, later⟩ :: rest) false t =
      match loop_body p t revents accept clients with
      | .ok t1 => main_loop p close_ok sockfd rest later t1
      | .exit status => .exited status
      | .fault => .crashed := by
  simp only [main_loop, loop_body, poll_return]
  rw [if_neg (by simp), if_neg (by omega)]
  cases h : handle_new_connection (poll_ready t revents) accept with
  | exit status => rfl
  | fault => rfl
  | ok accepted =>
    simp only
    by_cases he : accepted.client_sockets.isEmpty = true
    · simp only [if_pos he]
    · simp only [if_neg he]
      cases handle_client_data p clients accepted <;> rfl

theorem handle_new_connection_keeps_revents (t t1 : Server) (e : AcceptEnv) (listening : pollfd)
    (h0 : t.fds[0]? = some listening) (hin : listening.revents &&& POLLIN ≠ 0)
    (hr : handle_new_connection t e = .ok t1) :
    ∃ entry, (realloc t.fds (realloc_count SIZEOF_pollfd ((t1.max_clients + 1) % UINT64_SIZE))
        e.fresh_pollfd)[t1.max_clients]? = some entry ∧
      t1.fds[t1.max_clients]? = some ⟨e.new_socket, POLLIN, entry.revents⟩ := by
  unfold handle_new_connection at hr
  simp only [h0, if_pos hin] at hr
  split at hr
  · cases hr
  · split at hr
    · cases hr
    · split at hr
      · cases hr
      · split at hr
        · cases hr
        · split at hr
          · cases hr
          · split at hr
            · cases hr
            · rename_i entry hentry
              cases hr
              refine ⟨entry, hentry, ?_⟩
              simp only
              rw [List.getElem?_set_self (List.getElem?_eq_some.mp hentry).1]

end IOMultiplexing
